import Mathlib

/-!
Verification development for `scripts/swift_api_requester.py`.

The Python script generates Swift request/model sources and patches two
text documents: `HostPath.swift` (a registry of host/path bindings) and
`project.pbxproj` (an Xcode build manifest).  This file gives a shallow
embedding of the script's core functions and proves or refutes the
specification claims about them.

Modelling conventions:
* Python strings are `String` (or `List Char`, called `Content`, for the
  pbxproj text surgery where index arithmetic matters).
* `die(msg)` (print + `sys.exit(1)`) is `Except.error msg`.
* `warn(msg)` diagnostics are collected in explicit lists.
* The registry document `HostPath.swift` is modelled structurally: the
  text between the fixed block markers is a sequence of binding lines,
  each carrying a name and a raw value.  The regex
  `static let (\w+) = Host(rawValue: "...")` finds a binding line
  exactly when its name is a nonempty word (`[A-Za-z0-9_]+`, ASCII) and
  its raw value equals the searched literal; this is captured by the
  `isWordName` side condition in the lookup functions.  Raw values and
  summaries are assumed not to contain a double quote or a line that
  itself has the shape of a binding, which holds for every document the
  script itself produces.
* `uuid.uuid4().hex[:24].upper()` tokens are oracle inputs: functions
  that draw them take them as parameters.
-/

/-- Word character of the ASCII regex class `[A-Za-z0-9_]`, the ASCII
fragment of Python's `\w`. -/
def isWordChar (c : Char) : Bool :=
  c.isAlpha || c.isDigit || c = '_'

/-- Nonempty string consisting solely of word characters: exactly the
strings that the regex group `(\w+)` can produce (ASCII fragment). -/
def isWordName (s : String) : Bool :=
  !s.data.isEmpty && s.data.all isWordChar

/-- Decimal digit character for a digit value below ten. -/
def digitChar (d : Nat) : Char :=
  Char.ofNat (48 + d)

/-- Decimal digit values of a natural number, most significant first:
the digits Python's `f"{n}"` prints. -/
def natDigits (n : Nat) : List Nat :=
  if h : n < 10 then [n] else natDigits (n / 10) ++ [n % 10]
  decreasing_by exact Nat.div_lt_self (by omega) (by omega)

/-- Decimal rendering of a natural number, as Python's `f"{n}"`. -/
def natToStr (n : Nat) : String :=
  String.mk ((natDigits n).map digitChar)

/-- Value of a digit list read back as a decimal numeral. -/
def digitsVal (l : List Nat) : Nat :=
  l.foldl (fun a d => 10 * a + d) 0

theorem digitsVal_concat (l : List Nat) (d : Nat) :
    digitsVal (l ++ [d]) = 10 * digitsVal l + d := by
  simp [digitsVal, List.foldl_concat]

theorem digitsVal_natDigits (n : Nat) : digitsVal (natDigits n) = n := by
  induction n using Nat.strong_induction_on with
  | _ n ih =>
    rw [natDigits]
    by_cases h : n < 10
    · simp [h, digitsVal]
    · simp only [h, dite_false]
      rw [digitsVal_concat, ih (n / 10) (Nat.div_lt_self (by omega) (by omega))]
      omega

theorem natDigits_injective : Function.Injective natDigits := by
  intro a b hab
  have := digitsVal_natDigits a
  rw [hab, digitsVal_natDigits] at this
  omega

theorem natDigits_lt_ten (n : Nat) : ∀ d ∈ natDigits n, d < 10 := by
  induction n using Nat.strong_induction_on with
  | _ n ih =>
    rw [natDigits]
    by_cases h : n < 10
    · simp only [h, dite_true]
      intro d hd
      simp at hd
      omega
    · simp only [h, dite_false]
      intro d hd
      rcases List.mem_append.mp hd with h1 | h1
      · exact ih (n / 10) (Nat.div_lt_self (by omega) (by omega)) d h1
      · simp at h1; omega

theorem digitChar_inj_lt : ∀ d1 : Nat, d1 < 10 → ∀ d2 : Nat, d2 < 10 →
    digitChar d1 = digitChar d2 → d1 = d2 := by decide

theorem digitChar_isWordChar : ∀ d : Nat, d < 10 → isWordChar (digitChar d) = true := by
  decide

theorem map_digitChar_inj {l1 l2 : List Nat} (h1 : ∀ d ∈ l1, d < 10)
    (h2 : ∀ d ∈ l2, d < 10) (h : l1.map digitChar = l2.map digitChar) :
    l1 = l2 := by
  induction l1 generalizing l2 with
  | nil => cases l2 <;> simp_all
  | cons a t ih =>
    cases l2 with
    | nil => simp_all
    | cons b t2 =>
      simp only [List.map_cons, List.cons.injEq] at h
      have ha : a = b := digitChar_inj_lt a (h1 a (by simp)) b (h2 b (by simp)) h.1
      have ht : t = t2 := ih (fun d hd => h1 d (by simp [hd]))
        (fun d hd => h2 d (by simp [hd])) h.2
      rw [ha, ht]

theorem natToStr_injective : Function.Injective natToStr := by
  intro a b hab
  apply natDigits_injective
  have h : (natDigits a).map digitChar = (natDigits b).map digitChar := by
    have := congrArg String.data hab
    simpa [natToStr] using this
  exact map_digitChar_inj (natDigits_lt_ten a) (natDigits_lt_ten b) h

theorem natToStr_all_word (n : Nat) : (natToStr n).data.all isWordChar = true := by
  simp only [natToStr, List.all_eq_true]
  intro c hc
  rcases List.mem_map.mp hc with ⟨d, hd, rfl⟩
  exact digitChar_isWordChar d (natDigits_lt_ten n d hd)

/-- Python `s.split(sep)` for a single-character separator, on the
character list: structurally recursive so that concrete instances
reduce inside the kernel. -/
def splitChar (sep : Char) (l : List Char) : List (List Char) :=
  l.foldr
    (fun c acc =>
      if c = sep then [] :: acc
      else match acc with
        | [] => [[c]]
        | a :: rest => (c :: a) :: rest)
    [[]]

/-- Python `s.split(sep)` for a single-character separator, on strings. -/
def pySplit (sep : Char) (s : String) : List String :=
  (splitChar sep s.data).map String.mk

/-- Embedding of `normalize_domain`: split on dots; fewer than three
labels are returned unchanged, otherwise keep the first and the last
two labels. -/
def normalize_domain (domain : String) : String :=
  let parts := pySplit '.' domain
  if parts.length < 3 then domain
  else (parts.getD 0 "") ++ "." ++ (parts.getD (parts.length - 2) "") ++ "." ++
    (parts.getD (parts.length - 1) "")

/-- Embedding of `sanitize_identifier`: replace every character outside
`[A-Za-z0-9_]` by an underscore, then put an underscore in front when
the result starts with a digit. -/
def sanitize_identifier (value : String) : String :=
  let repl := value.data.map (fun c => if isWordChar c then c else '_')
  match repl with
  | [] => String.mk repl
  | c :: _ => if c.isDigit then String.mk ('_' :: repl) else String.mk repl

/-- Characters on which `re.split(r"[/_.-]+", path)` splits in `to_pascal`. -/
def isPascalSep (c : Char) : Bool :=
  c = '/' || c = '_' || c = '.' || c = '-'

/-- Maximal runs of non-separator characters of a character list; empty
runs are dropped, matching the `if p` filter in `to_pascal`. -/
def sepChunks (l : List Char) : List (List Char) :=
  let step : Char → (List Char × List (List Char)) → (List Char × List (List Char)) :=
    fun c acc =>
      if isPascalSep c then ([], if acc.1 = [] then acc.2 else acc.1 :: acc.2)
      else (c :: acc.1, acc.2)
  let r := l.foldr step ([], [])
  if r.1 = [] then r.2 else r.1 :: r.2

/-- Capitalisation `p[:1].upper() + p[1:]` of one chunk. -/
def capChunk : List Char → List Char
  | [] => []
  | c :: r => c.toUpper :: r

/-- Python `path.strip("/")`: drop the slash characters at both ends. -/
def stripSlashes (s : String) : List Char :=
  ((s.data.dropWhile (fun c => c = '/')).reverse.dropWhile (fun c => c = '/')).reverse

/-- Embedding of `to_pascal`: strip slashes, split on `[/_.-]+` runs,
capitalise each nonempty part and concatenate; an empty path yields
`"Request"`. -/
def to_pascal (path : String) : String :=
  let stripped := stripSlashes path
  if stripped = [] then "Request"
  else String.mk ((sepChunks stripped).map capChunk).flatten

/-- Embedding of `to_pascal_type`: `to_pascal`, then strip the remaining
non-alphanumeric characters; an empty result becomes `"Type"` and a
leading digit gets a `"Type"` tag in front. -/
def to_pascal_type (value : String) : String :=
  let name := String.mk ((to_pascal value).data.filter (fun c => c.isAlpha || c.isDigit))
  let name := if name = "" then "Type" else name
  match name.data with
  | [] => name
  | c :: _ => if c.isDigit then "Type" ++ name else name

/-- Embedding of `to_lower_camel`: lower-case the first character. -/
def to_lower_camel (value : String) : String :=
  match value.data with
  | [] => value
  | c :: r => String.mk (c.toLower :: r)

/-! ## Registry document model (`HostPath.swift`) -/

/-- One path binding line group: the `/// summary` comment, the binding
name and the raw path value. -/
structure PathEntry where
  summary : String
  name : String
  value : String
deriving DecidableEq

/-- Structural model of the `HostPath.swift` text: the host bindings in
the `extension Host` block, the path bindings in the `extension Path`
block, and whether each block's structural marker pair is locatable. -/
structure RegistryDoc where
  hostEntries : List (String × String)
  pathEntries : List PathEntry
  hostBlockOk : Bool
  pathBlockOk : Bool
deriving DecidableEq

/-- Python `name in entries` for the dict built by `parse_host_entries`. -/
def dictContains (l : List (String × String)) (k : String) : Bool :=
  l.any (fun e => e.1 = k)

/-- Python `entries.get(name)`: the value of the last assignment wins,
as in a Python dict built by iterated assignment. -/
def dictGet (l : List (String × String)) (k : String) : Option String :=
  (l.reverse.find? (fun e => e.1 = k)).map (fun e => e.2)

/-- Embedding of `parse_host_entries`: the binding lines whose name the
regex group `(\w+)` can match, in document order. -/
def parse_host_entries (doc : RegistryDoc) : List (String × String) :=
  doc.hostEntries.filter (fun e => isWordName e.1)

/-- Lookup of `re.search(rf"static let (\w+) = Host\(rawValue: \"{domain}\"\)")`:
the name of the first host binding line whose name is a word and whose
raw value is the searched domain. -/
def findHostBinding (doc : RegistryDoc) (domain : String) : Option String :=
  (doc.hostEntries.find? (fun e => isWordName e.1 && e.2 = domain)).map (fun e => e.1)

/-- Lookup of the corresponding `Path(rawValue: ...)` search. -/
def findPathBinding (doc : RegistryDoc) (pathValue : String) : Option String :=
  (doc.pathEntries.find? (fun e => isWordName e.name && e.value = pathValue)).map
    (fun e => e.name)

/-- The `while True` suffix loop of `build_unique_host_name`, trying
`f"{candidate}_{idx}"` for `idx = 2, 3, ...`.  The loop is given fuel;
`hostLoop_spec` shows that the fuel `build_unique_host_name` passes is
always enough, so the fuel-exhaustion fallback is never taken. -/
def hostLoop (candidate domain : String) (existing : List (String × String)) :
    Nat → Nat → String
  | 0, idx => candidate ++ "_" ++ natToStr idx
  | fuel + 1, idx =>
    let c := candidate ++ "_" ++ natToStr idx
    if dictContains existing c = false ∨ dictGet existing c = some domain then c
    else hostLoop candidate domain existing fuel (idx + 1)

/-- Embedding of `build_unique_host_name`. -/
def build_unique_host_name (domain : String) (existing : List (String × String)) :
    String :=
  let parts := pySplit '.' domain
  let baseName := match parts with
    | [] => "host"
    | p :: _ => sanitize_identifier p
  if dictContains existing baseName = false then baseName
  else if dictGet existing baseName = some domain then baseName
  else
    let suffixBase := if parts.length > 1 then sanitize_identifier (parts.getD 1 "")
      else "host"
    let candidate := if suffixBase ≠ "" then baseName ++ "_" ++ suffixBase else baseName
    if dictContains existing candidate = false ∨ dictGet existing candidate = some domain
    then candidate
    else hostLoop candidate domain existing (existing.length + 1) 2

/-- Embedding of `ensure_host_entry`: exact-match lookup first; on a
miss, synthesise a unique name and append the binding at the end of the
`extension Host` block, failing when the block marker is missing. -/
def ensure_host_entry (doc : RegistryDoc) (domain : String) :
    Except String (RegistryDoc × String × Bool) :=
  match findHostBinding doc domain with
  | some name => .ok (doc, name, false)
  | none =>
    let existing := parse_host_entries doc
    let hostName := build_unique_host_name domain existing
    if doc.hostBlockOk then
      .ok ({ doc with hostEntries := doc.hostEntries ++ [(hostName, domain)] },
        hostName, true)
    else .error "failed to locate Host extension in HostPath.swift"

/-- Embedding of `ensure_path_entry`: exact-match lookup first; on a
miss, append a binding named `default_name` (no collision handling) at
the end of the `extension Path` block. -/
def ensure_path_entry (doc : RegistryDoc) (pathValue summary defaultName : String) :
    Except String (RegistryDoc × String × Bool) :=
  match findPathBinding doc pathValue with
  | some name => .ok (doc, name, false)
  | none =>
    if doc.pathBlockOk then
      .ok ({ doc with
        pathEntries := doc.pathEntries ++ [⟨summary, defaultName, pathValue⟩] },
        defaultName, true)
    else .error "failed to locate Path extension in HostPath.swift"

/-- Embedding of the pure part of `update_host_path`: normalise the
domain, merge the host binding, derive the default path name and merge
the path binding; returns the new document, both names and whether
either merge changed the document.  (Persisting the document is the
caller's decision, driven by `write_changes`.) -/
def update_host_path (doc : RegistryDoc) (pathValue summary domain : String) :
    Except String (RegistryDoc × String × String × Bool) := do
  let normalized := normalize_domain domain
  let (doc1, hostName, hostChanged) ← ensure_host_entry doc normalized
  let baseName := to_pascal pathValue
  let pathNameDefault := to_lower_camel baseName
  let (doc2, pathName, pathChanged) ← ensure_path_entry doc1 pathValue summary
    pathNameDefault
  .ok (doc2, hostName, pathName, hostChanged || pathChanged)

/-! ## Word-name and sanitizer lemmas -/

theorem isWordName_iff (s : String) :
    isWordName s = true ↔ s.data ≠ [] ∧ ∀ c ∈ s.data, isWordChar c = true := by
  simp [isWordName, List.all_eq_true, List.isEmpty_iff]

theorem sanitize_identifier_word (s : String) (h : s.data ≠ []) :
    isWordName (sanitize_identifier s) = true := by
  rw [isWordName_iff]
  unfold sanitize_identifier
  have hmap : ∀ x ∈ s.data.map (fun c => if isWordChar c then c else '_'),
      isWordChar x = true := by
    intro x hx
    rcases List.mem_map.mp hx with ⟨y, _, rfl⟩
    by_cases hy : isWordChar y
    · simp [hy]
    · rw [if_neg hy]; decide
  cases hd : s.data.map (fun c => if isWordChar c then c else '_') with
  | nil => simp at hd; exact absurd hd h
  | cons c r =>
    rw [hd] at hmap
    by_cases hc : c.isDigit
    · simp only [hc, if_true]
      refine ⟨by simp, ?_⟩
      intro x hx
      rcases List.mem_cons.mp hx with hx | hx
      · subst hx; decide
      · exact hmap x (by simp [hx])
    · simp only [hc, if_false]
      exact ⟨by simp, by simpa using hmap⟩

/-! ## Name synthesis: the suffix loop always finds a free or
self-consistent name, and the result stays a word when the base is -/

/-- Free-or-self: the predicate the `while True` loop of
`build_unique_host_name` searches for. -/
def freeOrSelf (existing : List (String × String)) (domain name : String) : Prop :=
  dictContains existing name = false ∨ dictGet existing name = some domain

theorem word_append_suffix (s : String) (n : Nat) (h : isWordName s = true) :
    isWordName (s ++ "_" ++ natToStr n) = true := by
  rw [isWordName_iff] at h ⊢
  refine ⟨by simp [String.data_append], ?_⟩
  intro c hc
  simp only [String.data_append] at hc
  rcases List.mem_append.mp hc with hc | hc
  · rcases List.mem_append.mp hc with hc | hc
    · exact h.2 c hc
    · simp at hc; subst hc; decide
  · exact (List.all_eq_true.mp (natToStr_all_word n)) c hc

theorem hostLoop_word (candidate domain : String) (existing : List (String × String))
    (fuel idx : Nat) (h : isWordName candidate = true) :
    isWordName (hostLoop candidate domain existing fuel idx) = true := by
  induction fuel generalizing idx with
  | zero => exact word_append_suffix candidate idx h
  | succ fuel ih =>
    rw [hostLoop]
    split
    · exact word_append_suffix candidate idx h
    · exact ih (idx + 1)

theorem hostLoop_spec (candidate domain : String) (existing : List (String × String))
    (fuel idx : Nat)
    (h : ∃ i, i < fuel ∧ freeOrSelf existing domain (candidate ++ "_" ++ natToStr (idx + i))) :
    freeOrSelf existing domain (hostLoop candidate domain existing fuel idx) := by
  induction fuel generalizing idx with
  | zero => rcases h with ⟨i, hi, _⟩; omega
  | succ fuel ih =>
    rw [hostLoop]
    split
    · assumption
    · rename_i hguard
      apply ih
      rcases h with ⟨i, hi, hP⟩
      match i, hP with
      | 0, hP => exact absurd (by simpa using hP) hguard
      | i + 1, hP =>
        exact ⟨i, by omega, by have : idx + (i + 1) = idx + 1 + i := by omega
                               rwa [this] at hP⟩

theorem suffix_candidates_injective (candidate : String) :
    Function.Injective (fun i : Nat => candidate ++ "_" ++ natToStr i) := by
  intro a b hab
  apply natToStr_injective
  apply String.ext
  have := congrArg String.data hab
  simp only [String.data_append] at this
  exact List.append_cancel_left this

theorem dictContains_iff (l : List (String × String)) (k : String) :
    dictContains l k = true ↔ k ∈ l.map Prod.fst := by
  simp only [dictContains, List.any_eq_true, List.mem_map]
  constructor
  · rintro ⟨e, he, hek⟩
    exact ⟨e, he, by simpa using hek⟩
  · rintro ⟨e, he, hek⟩
    exact ⟨e, he, by simpa using hek⟩

theorem exists_free_suffix (candidate domain : String)
    (existing : List (String × String)) :
    ∃ i, i < existing.length + 1 ∧
      freeOrSelf existing domain (candidate ++ "_" ++ natToStr (2 + i)) := by
  by_contra hcon
  push_neg at hcon
  have hmem : ∀ i : Fin (existing.length + 1),
      (candidate ++ "_" ++ natToStr (2 + i.val)) ∈ (existing.map Prod.fst).toFinset := by
    intro i
    have h := hcon i.val i.isLt
    rw [freeOrSelf] at h
    push_neg at h
    have h1 := h.1
    rw [List.mem_toFinset, ← dictContains_iff]
    cases hdc : dictContains existing (candidate ++ "_" ++ natToStr (2 + i.val)) with
    | false => exact absurd hdc h1
    | true => rfl
  have hinj : Function.Injective
      (fun i : Fin (existing.length + 1) => candidate ++ "_" ++ natToStr (2 + i.val)) := by
    intro a b hab
    have h2 : 2 + a.val = 2 + b.val := suffix_candidates_injective candidate hab
    exact Fin.ext (by omega)
  have hsub : Finset.image
      (fun i : Fin (existing.length + 1) => candidate ++ "_" ++ natToStr (2 + i.val))
      Finset.univ ⊆ (existing.map Prod.fst).toFinset := by
    intro x hx
    rcases Finset.mem_image.mp hx with ⟨i, _, rfl⟩
    exact hmem i
  have hcard := Finset.card_le_card hsub
  rw [Finset.card_image_of_injective Finset.univ hinj] at hcard
  simp only [Finset.card_univ, Fintype.card_fin] at hcard
  have hlen := List.toFinset_card_le (existing.map Prod.fst)
  simp only [List.length_map] at hlen
  omega

theorem freeOrSelf_tail (existing : List (String × String)) (domain cand : String) :
    freeOrSelf existing domain
      (if dictContains existing cand = false ∨ dictGet existing cand = some domain
       then cand else hostLoop cand domain existing (existing.length + 1) 2) := by
  split
  · assumption
  · exact hostLoop_spec _ _ _ _ _ (exists_free_suffix _ _ _)

theorem build_unique_host_name_spec (domain : String)
    (existing : List (String × String)) :
    freeOrSelf existing domain (build_unique_host_name domain existing) := by
  unfold build_unique_host_name
  dsimp only
  split
  · left; assumption
  · split
    · right; assumption
    · exact freeOrSelf_tail _ _ _

theorem sanitize_identifier_all_word (s : String) :
    (sanitize_identifier s).data.all isWordChar = true := by
  unfold sanitize_identifier
  have hmap : ∀ x ∈ s.data.map (fun c => if isWordChar c then c else '_'),
      isWordChar x = true := by
    intro x hx
    rcases List.mem_map.mp hx with ⟨y, _, rfl⟩
    by_cases hy : isWordChar y
    · simp [hy]
    · rw [if_neg hy]; decide
  cases hd : s.data.map (fun c => if isWordChar c then c else '_') with
  | nil => simp
  | cons c r =>
    rw [hd] at hmap
    by_cases hc : c.isDigit
    · simp only [hc, if_true]
      rw [List.all_eq_true]
      intro x hx
      rcases List.mem_cons.mp hx with hx | hx
      · subst hx; decide
      · exact hmap x hx
    · simp only [hc, if_false]
      rw [List.all_eq_true]
      exact hmap

theorem word_append_underscore (a b : String) (ha : isWordName a = true)
    (hb : b.data.all isWordChar = true) :
    isWordName (a ++ "_" ++ b) = true := by
  rw [isWordName_iff] at ha ⊢
  refine ⟨by simp [String.data_append], ?_⟩
  intro c hc
  simp only [String.data_append] at hc
  rcases List.mem_append.mp hc with hc | hc
  · rcases List.mem_append.mp hc with hc | hc
    · exact ha.2 c hc
    · simp at hc; subst hc; decide
  · exact (List.all_eq_true.mp hb) c hc

theorem word_tail (existing : List (String × String)) (domain cand : String)
    (h : isWordName cand = true) :
    isWordName
      (if dictContains existing cand = false ∨ dictGet existing cand = some domain
       then cand else hostLoop cand domain existing (existing.length + 1) 2) = true := by
  split
  · exact h
  · exact hostLoop_word _ _ _ _ _ h

theorem candidate_word (base sfx : String) (hbase : isWordName base = true)
    (hsfx : sfx.data.all isWordChar = true) :
    isWordName (if sfx ≠ "" then base ++ "_" ++ sfx else base) = true := by
  split
  · exact word_append_underscore _ _ hbase hsfx
  · exact hbase

theorem build_unique_host_name_word (domain : String)
    (existing : List (String × String))
    (h : (pySplit '.' domain).getD 0 "" ≠ "") :
    isWordName (build_unique_host_name domain existing) = true := by
  have hbase : isWordName (match pySplit '.' domain with
      | [] => "host"
      | p :: _ => sanitize_identifier p) = true := by
    cases hp : pySplit '.' domain with
    | nil => decide
    | cons p rest =>
      apply sanitize_identifier_word
      rw [hp] at h
      simp only [List.getD_cons_zero] at h
      intro hc
      exact h (by cases p; simp_all)
  have hsfx : (if (pySplit '.' domain).length > 1 then
      sanitize_identifier ((pySplit '.' domain).getD 1 "") else "host").data.all
        isWordChar = true := by
    split
    · exact sanitize_identifier_all_word _
    · decide
  have hcand := candidate_word _ _ hbase hsfx
  unfold build_unique_host_name
  dsimp only
  split
  · exact hbase
  · split
    · exact hbase
    · exact word_tail _ _ _ hcand

/-! ## Behaviour of the merge on hits, misses and re-runs -/

theorem findHostBinding_congr (doc1 doc2 : RegistryDoc) (d : String)
    (h : doc1.hostEntries = doc2.hostEntries) :
    findHostBinding doc1 d = findHostBinding doc2 d := by
  unfold findHostBinding
  rw [h]

theorem findPathBinding_congr (doc1 doc2 : RegistryDoc) (p : String)
    (h : doc1.pathEntries = doc2.pathEntries) :
    findPathBinding doc1 p = findPathBinding doc2 p := by
  unfold findPathBinding
  rw [h]

theorem findHostBinding_append_hit (doc : RegistryDoc) (n d : String)
    (hw : isWordName n = true) (hmiss : findHostBinding doc d = none) :
    findHostBinding
      { doc with hostEntries := doc.hostEntries ++ [(n, d)] } d = some n := by
  unfold findHostBinding at hmiss ⊢
  have hfind : doc.hostEntries.find?
      (fun e => isWordName e.1 && decide (e.2 = d)) = none := by
    cases hf : doc.hostEntries.find? (fun e => isWordName e.1 && decide (e.2 = d)) with
    | none => rfl
    | some e => rw [hf] at hmiss; simp at hmiss
  dsimp only
  rw [List.find?_append, hfind]
  simp [hw]

theorem findPathBinding_append_hit (doc : RegistryDoc) (s n p : String)
    (hw : isWordName n = true) (hmiss : findPathBinding doc p = none) :
    findPathBinding
      { doc with pathEntries := doc.pathEntries ++ [⟨s, n, p⟩] } p = some n := by
  unfold findPathBinding at hmiss ⊢
  have hfind : doc.pathEntries.find?
      (fun e => isWordName e.name && decide (e.value = p)) = none := by
    cases hf : doc.pathEntries.find? (fun e => isWordName e.name && decide (e.value = p)) with
    | none => rfl
    | some e => rw [hf] at hmiss; simp at hmiss
  dsimp only
  rw [List.find?_append, hfind]
  simp [hw]

theorem ensure_host_entry_found (doc : RegistryDoc) (d n : String)
    (h : findHostBinding doc d = some n) :
    ensure_host_entry doc d = .ok (doc, n, false) := by
  unfold ensure_host_entry
  rw [h]

theorem ensure_path_entry_found (doc : RegistryDoc) (p s dn n : String)
    (h : findPathBinding doc p = some n) :
    ensure_path_entry doc p s dn = .ok (doc, n, false) := by
  unfold ensure_path_entry
  rw [h]

theorem ensure_host_entry_shape (doc docA : RegistryDoc) (d hn : String) (hc : Bool)
    (h : ensure_host_entry doc d = .ok (docA, hn, hc)) :
    (docA = doc ∧ findHostBinding doc d = some hn) ∨
    (docA = { doc with hostEntries := doc.hostEntries ++ [(hn, d)] } ∧
      findHostBinding doc d = none ∧
      hn = build_unique_host_name d (parse_host_entries doc)) := by
  unfold ensure_host_entry at h
  cases hf : findHostBinding doc d with
  | some m =>
    rw [hf] at h
    simp only [Except.ok.injEq, Prod.mk.injEq] at h
    left
    exact ⟨h.1.symm, congrArg some h.2.1⟩
  | none =>
    rw [hf] at h
    dsimp only at h
    by_cases hb : doc.hostBlockOk
    · rw [if_pos hb] at h
      simp only [Except.ok.injEq, Prod.mk.injEq] at h
      right
      exact ⟨by rw [← h.1, ← h.2.1], rfl, h.2.1.symm⟩
    · rw [if_neg hb] at h
      exact absurd h (by simp)

theorem ensure_path_entry_shape (doc docB : RegistryDoc) (p s dn pn : String)
    (pc : Bool) (h : ensure_path_entry doc p s dn = .ok (docB, pn, pc)) :
    (docB = doc ∧ findPathBinding doc p = some pn) ∨
    (docB = { doc with pathEntries := doc.pathEntries ++ [⟨s, pn, p⟩] } ∧
      findPathBinding doc p = none ∧ pn = dn) := by
  unfold ensure_path_entry at h
  cases hf : findPathBinding doc p with
  | some m =>
    rw [hf] at h
    simp only [Except.ok.injEq, Prod.mk.injEq] at h
    left
    exact ⟨h.1.symm, congrArg some h.2.1⟩
  | none =>
    rw [hf] at h
    dsimp only at h
    by_cases hb : doc.pathBlockOk
    · rw [if_pos hb] at h
      simp only [Except.ok.injEq, Prod.mk.injEq] at h
      right
      exact ⟨by rw [← h.1, ← h.2.1], rfl, h.2.1.symm⟩
    · rw [if_neg hb] at h
      exact absurd h (by simp)

theorem ensure_host_entry_ok_find (doc docA : RegistryDoc) (d hn : String) (hc : Bool)
    (hlabel : (pySplit '.' d).getD 0 "" ≠ "")
    (h : ensure_host_entry doc d = .ok (docA, hn, hc)) :
    findHostBinding docA d = some hn := by
  rcases ensure_host_entry_shape doc docA d hn hc h with ⟨rfl, hf⟩ | ⟨rfl, hf, hname⟩
  · exact hf
  · exact findHostBinding_append_hit doc hn d
      (hname ▸ build_unique_host_name_word d _ hlabel) hf

theorem ensure_path_entry_ok_find (doc docB : RegistryDoc) (p s dn pn : String)
    (pc : Bool) (hword : isWordName dn = true)
    (h : ensure_path_entry doc p s dn = .ok (docB, pn, pc)) :
    findPathBinding docB p = some pn := by
  rcases ensure_path_entry_shape doc docB p s dn pn pc h with ⟨rfl, hf⟩ | ⟨rfl, hf, hname⟩
  · exact hf
  · exact findPathBinding_append_hit doc s pn p (hname ▸ hword) hf

theorem ensure_host_entry_frame (doc docA : RegistryDoc) (d hn : String) (hc : Bool)
    (h : ensure_host_entry doc d = .ok (docA, hn, hc)) :
    docA.pathEntries = doc.pathEntries ∧ docA.pathBlockOk = doc.pathBlockOk ∧
      docA.hostBlockOk = doc.hostBlockOk := by
  rcases ensure_host_entry_shape doc docA d hn hc h with ⟨rfl, _⟩ | ⟨rfl, _, _⟩ <;>
    exact ⟨rfl, rfl, rfl⟩

theorem ensure_path_entry_frame (doc docB : RegistryDoc) (p s dn pn : String)
    (pc : Bool) (h : ensure_path_entry doc p s dn = .ok (docB, pn, pc)) :
    docB.hostEntries = doc.hostEntries ∧ docB.hostBlockOk = doc.hostBlockOk := by
  rcases ensure_path_entry_shape doc docB p s dn pn pc h with ⟨rfl, _⟩ | ⟨rfl, _, _⟩ <;>
    exact ⟨rfl, rfl⟩

theorem update_host_path_twice (doc : RegistryDoc) (p s d : String)
    (doc1 : RegistryDoc) (hn pn : String) (ch : Bool)
    (hhost : (pySplit '.' (normalize_domain d)).getD 0 "" ≠ "")
    (hpath : isWordName (to_lower_camel (to_pascal p)) = true)
    (h : update_host_path doc p s d = .ok (doc1, hn, pn, ch)) :
    update_host_path doc1 p s d = .ok (doc1, hn, pn, false) := by
  unfold update_host_path at h ⊢
  dsimp only at h ⊢
  cases hhe : ensure_host_entry doc (normalize_domain d) with
  | error e =>
    rw [hhe] at h
    simp only [bind, Except.bind] at h
    cases h
  | ok res =>
    obtain ⟨docA, hn1, hc1⟩ := res
    rw [hhe] at h
    simp only [bind, Except.bind] at h
    cases hpe : ensure_path_entry docA p s (to_lower_camel (to_pascal p)) with
    | error e =>
      rw [hpe] at h
      cases h
    | ok res2 =>
      obtain ⟨docB, pn1, pc1⟩ := res2
      rw [hpe] at h
      simp only [Except.ok.injEq, Prod.mk.injEq] at h
      obtain ⟨hdoc, hhn, hpn, _⟩ := h
      subst hdoc hhn hpn
      have hframe := ensure_path_entry_frame docA docB p s _ pn1 pc1 hpe
      have hfind1 : findHostBinding docB (normalize_domain d) = some hn1 := by
        rw [findHostBinding_congr docB docA _ hframe.1]
        exact ensure_host_entry_ok_find doc docA _ hn1 hc1 hhost hhe
      have hfind2 : findPathBinding docB p = some pn1 :=
        ensure_path_entry_ok_find docA docB p s _ pn1 pc1 hpath hpe
      rw [ensure_host_entry_found docB _ hn1 hfind1]
      simp only [bind, Except.bind]
      rw [ensure_path_entry_found docB p s _ pn1 hfind2]
      rfl

/-! ## Claim C9: domain normalization -/

/-- C9: `normalize_domain` returns a domain with fewer than three labels
unchanged, and collapses a domain with at least three labels to its
first label plus its last two labels; concretely the four-label domain
`foo.bar.example.com` normalizes to `foo.example.com`. -/
theorem C9_domain_normalization (d : String) :
    ((pySplit '.' d).length < 3 → normalize_domain d = d) ∧
    (∀ h3 : 3 ≤ (pySplit '.' d).length,
      normalize_domain d =
        (pySplit '.' d).get ⟨0, by omega⟩ ++ "." ++
        (pySplit '.' d).get ⟨(pySplit '.' d).length - 2, by omega⟩ ++ "." ++
        (pySplit '.' d).get ⟨(pySplit '.' d).length - 1, by omega⟩) ∧
    normalize_domain "foo.bar.example.com" = "foo.example.com" := by
  refine ⟨?_, ?_, by rfl⟩
  · intro h
    unfold normalize_domain
    rw [if_pos h]
  · intro h3
    unfold normalize_domain
    rw [if_neg (by omega)]
    rw [List.getD_eq_getElem _ _ (by omega), List.getD_eq_getElem _ _ (by omega),
      List.getD_eq_getElem _ _ (by omega)]
    rfl

/-- Witness for C9 at concrete two-label and four-label domains. -/
theorem C9_domain_normalization_witness :
    normalize_domain "ab" = "ab" ∧
    normalize_domain "foo.bar.example.com" = "foo.example.com" :=
  ⟨(C9_domain_normalization "ab").1 (by decide),
   (C9_domain_normalization "foo.bar.example.com").2.2⟩

/-! ## Claim C1: idempotence of the registry merge -/

/-- C1 (amended): the exact-match branch returns the document unchanged
with `changed = false` and the existing name; and re-running the merge
with the same path, summary and domain yields `changed = false` and the
same names, provided the synthesized binding names can be re-discovered
by the `static let (\w+) = ...` lookup, that is, the normalized domain's
first label is nonempty and the camel-case path name consists of word
characters only.  (Without that proviso the claim fails: see the
counterexample with path `/~user`.) -/
theorem C1_registry_merge_idempotent :
    (∀ (doc : RegistryDoc) (k n : String), findHostBinding doc k = some n →
      ensure_host_entry doc k = .ok (doc, n, false)) ∧
    (∀ (doc : RegistryDoc) (k s dn n : String), findPathBinding doc k = some n →
      ensure_path_entry doc k s dn = .ok (doc, n, false)) ∧
    (∀ (doc : RegistryDoc) (p s d : String) (doc1 : RegistryDoc) (hn pn : String)
      (ch : Bool),
      (pySplit '.' (normalize_domain d)).getD 0 "" ≠ "" →
      isWordName (to_lower_camel (to_pascal p)) = true →
      update_host_path doc p s d = .ok (doc1, hn, pn, ch) →
      update_host_path doc1 p s d = .ok (doc1, hn, pn, false)) :=
  ⟨fun doc k n h => ensure_host_entry_found doc k n h,
   fun doc k s dn n h => ensure_path_entry_found doc k s dn n h,
   fun doc p s d doc1 hn pn ch hhost hpath h =>
     update_host_path_twice doc p s d doc1 hn pn ch hhost hpath h⟩

/-- Witness for C1 at concrete inputs: a hit on an existing binding,
and a full double merge of `/a/b` against `a.example.com`. -/
theorem C1_registry_merge_idempotent_witness :
    ensure_host_entry ⟨[("api", "api.x.y")], [], true, true⟩ "api.x.y" =
      .ok (⟨[("api", "api.x.y")], [], true, true⟩, "api", false) ∧
    ensure_path_entry ⟨[], [⟨"s", "aB", "/a/b"⟩], true, true⟩ "/a/b" "s" "aB" =
      .ok (⟨[], [⟨"s", "aB", "/a/b"⟩], true, true⟩, "aB", false) ∧
    update_host_path
        ⟨[("a", "a.example.com")], [⟨"s", "aB", "/a/b"⟩], true, true⟩ "/a/b" "s"
        "a.example.com" =
      .ok (⟨[("a", "a.example.com")], [⟨"s", "aB", "/a/b"⟩], true, true⟩, "a", "aB",
        false) :=
  ⟨C1_registry_merge_idempotent.1 ⟨[("api", "api.x.y")], [], true, true⟩ "api.x.y"
      "api" (by decide),
   C1_registry_merge_idempotent.2.1 ⟨[], [⟨"s", "aB", "/a/b"⟩], true, true⟩ "/a/b"
      "s" "aB" "aB" (by decide),
   C1_registry_merge_idempotent.2.2
      ⟨[("a", "a.example.com")], [], true, true⟩ "/a/b" "s" "a.example.com"
      ⟨[("a", "a.example.com")], [⟨"s", "aB", "/a/b"⟩], true, true⟩ "a" "aB" true
      (by decide) (by decide) (by rfl)⟩

/-- Counterexample to C1 as stated: merging the logical key `/~user`
(with domain `a.example.com`) into an empty registry twice yields
`changed = true` on the second call as well, and the second call grows
the document again: the inserted binding name `~user` is not a `\w+`
word, so the exact-match lookup can never find it. -/
theorem C1_counterexample :
    update_host_path ⟨[], [], true, true⟩ "/~user" "s" "a.example.com" =
      .ok (⟨[("a", "a.example.com")], [⟨"s", "~user", "/~user"⟩], true, true⟩,
        "a", "~user", true) ∧
    update_host_path
        ⟨[("a", "a.example.com")], [⟨"s", "~user", "/~user"⟩], true, true⟩
        "/~user" "s" "a.example.com" =
      .ok (⟨[("a", "a.example.com")],
        [⟨"s", "~user", "/~user"⟩, ⟨"s", "~user", "/~user"⟩], true, true⟩,
        "a", "~user", true) := by
  constructor <;> rfl

/-! ## Claim C3: uniqueness of synthesized names -/

/-- Merging a sequence of logical host keys (already-normalized domains)
into a registry document, collecting the resulting symbolic names:
iterated `ensure_host_entry`, as re-running the generator does. -/
def mergeHostKeys : RegistryDoc → List String → Except String (RegistryDoc × List String)
  | doc, [] => .ok (doc, [])
  | doc, d :: ds => do
    let (doc1, n, _) ← ensure_host_entry doc d
    let (doc2, ns) ← mergeHostKeys doc1 ds
    .ok (doc2, n :: ns)

theorem dictGet_mem (l : List (String × String)) (k v : String)
    (h : dictGet l k = some v) : ∃ e ∈ l, e.1 = k ∧ e.2 = v := by
  unfold dictGet at h
  cases hf : l.reverse.find? (fun e => decide (e.1 = k)) with
  | none => rw [hf] at h; simp at h
  | some e =>
    rw [hf] at h
    simp only [Option.map] at h
    have hmem := List.mem_of_find?_eq_some hf
    have hpred := List.find?_some hf
    simp only [decide_eq_true_eq] at hpred
    exact ⟨e, List.mem_reverse.mp hmem, hpred, by simpa using h⟩

theorem parse_host_entries_append (doc : RegistryDoc) (n d : String)
    (hw : isWordName n = true) :
    parse_host_entries { doc with hostEntries := doc.hostEntries ++ [(n, d)] } =
      parse_host_entries doc ++ [(n, d)] := by
  simp [parse_host_entries, List.filter_append, hw]

theorem mergeHostKeys_spec (ds : List String) : ∀ doc : RegistryDoc,
    doc.hostBlockOk = true → ds.Nodup →
    (∀ d ∈ ds, (pySplit '.' d).getD 0 "" ≠ "") →
    (∀ e ∈ doc.hostEntries, e.2 ∉ ds) →
    ∃ doc' ns, mergeHostKeys doc ds = .ok (doc', ns) ∧ ns.Nodup ∧
      ∀ n ∈ ns, n ∉ (parse_host_entries doc).map Prod.fst := by
  induction ds with
  | nil =>
    intro doc _ _ _ _
    exact ⟨doc, [], rfl, List.nodup_nil, by simp⟩
  | cons d ds ih =>
    intro doc hblock hnodup hlabels hvals
    have hmiss : findHostBinding doc d = none := by
      unfold findHostBinding
      rw [List.find?_eq_none.mpr]
      · rfl
      · intro e he
        have := hvals e he
        simp only [List.mem_cons] at this
        push_neg at this
        simp [this.1]
    have hword : isWordName (build_unique_host_name d (parse_host_entries doc)) = true :=
      build_unique_host_name_word d _ (hlabels d (by simp))
    have hfresh : build_unique_host_name d (parse_host_entries doc) ∉
        (parse_host_entries doc).map Prod.fst := by
      rcases build_unique_host_name_spec d (parse_host_entries doc) with hfree | hself
      · intro hmem
        rw [← dictContains_iff] at hmem
        rw [hfree] at hmem
        cases hmem
      · exfalso
        rcases dictGet_mem _ _ _ hself with ⟨e, hemem, _, hval⟩
        have hsub : e ∈ doc.hostEntries := List.mem_of_mem_filter hemem
        have := hvals e hsub
        simp [hval] at this
    set hn := build_unique_host_name d (parse_host_entries doc) with hhn
    set doc1 : RegistryDoc := { doc with hostEntries := doc.hostEntries ++ [(hn, d)] }
      with hdoc1
    have hens : ensure_host_entry doc d = .ok (doc1, hn, true) := by
      unfold ensure_host_entry
      rw [hmiss]
      dsimp only
      rw [if_pos hblock]
    have hdoc1vals : ∀ e ∈ doc1.hostEntries, e.2 ∉ ds := by
      intro e he
      rw [hdoc1] at he
      dsimp only at he
      rcases List.mem_append.mp he with he | he
      · intro hc
        exact hvals e he (by simp [hc])
      · simp only [List.mem_singleton] at he
        subst he
        exact (List.nodup_cons.mp hnodup).1
    rcases ih doc1 hblock (List.nodup_cons.mp hnodup).2
        (fun x hx => hlabels x (by simp [hx])) hdoc1vals with
      ⟨doc', ns, hm, hnsnodup, hns⟩
    refine ⟨doc', hn :: ns, ?_, ?_, ?_⟩
    · unfold mergeHostKeys
      rw [hens]
      simp only [bind, Except.bind]
      rw [hm]
    · rw [List.nodup_cons]
      refine ⟨fun hc => ?_, hnsnodup⟩
      have := hns hn hc
      rw [parse_host_entries_append doc hn d hword] at this
      simp at this
    · intro n hn2
      rcases List.mem_cons.mp hn2 with rfl | hn2
      · exact hfresh
      · intro hc
        apply hns n hn2
        rw [parse_host_entries_append doc hn d hword]
        simp only [List.map_append, List.mem_append]
        left
        exact hc

/-- C3 (amended): for host keys the claim holds — merging any sequence
of pairwise-distinct normalized domains (each with a nonempty first
label) into an initially empty registry block succeeds and produces
pairwise-distinct symbolic names, because `build_unique_host_name`
renames on collision.  For path keys it fails: `ensure_path_entry`
performs no symbolic-name collision resolution, so two distinct path
keys can receive the same name (see the counterexample). -/
theorem C3_host_names_unique (ds : List String) (hnodup : ds.Nodup)
    (hlabels : ∀ d ∈ ds, (pySplit '.' d).getD 0 "" ≠ "") :
    ∃ doc' ns, mergeHostKeys ⟨[], [], true, true⟩ ds = .ok (doc', ns) ∧
      ns.Nodup := by
  rcases mergeHostKeys_spec ds ⟨[], [], true, true⟩ rfl hnodup hlabels
      (by intro e he; cases he) with ⟨doc', ns, hm, hnd, _⟩
  exact ⟨doc', ns, hm, hnd⟩

/-- Witness for C3 on the colliding domains `a.x.y` and `a.z.y`, whose
first labels coincide so the second name must be renamed. -/
theorem C3_host_names_unique_witness :
    (["a.x.y", "a.z.y"].Nodup ∧
      ∀ d ∈ ["a.x.y", "a.z.y"], (pySplit '.' d).getD 0 "" ≠ "") ∧
    ∃ doc' ns, mergeHostKeys ⟨[], [], true, true⟩ ["a.x.y", "a.z.y"] =
      .ok (doc', ns) ∧ ns.Nodup :=
  ⟨⟨by decide, by decide⟩,
   C3_host_names_unique ["a.x.y", "a.z.y"] (by decide) (by decide)⟩

/-- Counterexample to C3 as stated: the two distinct logical path keys
`/a/b` and `/a-b` merged into an initially empty registry both receive
the symbolic name `aB`; the second merge inserts a duplicate name
instead of renaming, so the names of a two-key sequence collide and the
document holds the same symbolic name twice. -/
theorem C3_counterexample :
    update_host_path ⟨[], [], true, true⟩ "/a/b" "s1" "x.example.com" =
      .ok (⟨[("x", "x.example.com")], [⟨"s1", "aB", "/a/b"⟩], true, true⟩,
        "x", "aB", true) ∧
    update_host_path ⟨[("x", "x.example.com")], [⟨"s1", "aB", "/a/b"⟩], true, true⟩
        "/a-b" "s2" "x.example.com" =
      .ok (⟨[("x", "x.example.com")],
        [⟨"s1", "aB", "/a/b"⟩, ⟨"s2", "aB", "/a-b"⟩], true, true⟩,
        "x", "aB", true) ∧
    ("/a/b" : String) ≠ "/a-b" ∧
    [⟨"s1", "aB", "/a/b"⟩, ⟨"s2", "aB", "/a-b"⟩].map PathEntry.name =
      ["aB", "aB"] := by
  refine ⟨by rfl, by rfl, by decide, by rfl⟩

/-! ## Type maps, parameter parsing and property-name formatting -/

/-- Whitespace characters stripped by Python's `str.strip()` (ASCII). -/
def isPyWs (c : Char) : Bool :=
  c = ' ' || c = '\t' || c = '\n' || c = '\r' || c = '\x0b' || c = '\x0c'

/-- Python `s.strip()` on the underlying character list. -/
def pyStrip (s : String) : String :=
  String.mk (((s.data.dropWhile isPyWs).reverse.dropWhile isPyWs).reverse)

/-- Python `s.lower()` (ASCII fragment). -/
def pyLower (s : String) : String :=
  String.mk (s.data.map Char.toLower)

/-- Python `s.upper()` (ASCII fragment). -/
def pyUpper (s : String) : String :=
  String.mk (s.data.map Char.toUpper)

/-- The `PARAM_TYPE_MAP` dict, in source order. -/
def PARAM_TYPE_MAP : List (String × String) :=
  [("string", "String"), ("int", "Int"), ("integer", "Int"), ("long", "Int64"),
   ("float", "Double"), ("double", "Double"), ("number", "Double"),
   ("bool", "Bool"), ("boolean", "Bool"), ("array", "[Any]"),
   ("object", "[String: Any]"), ("map", "[String: Any]"), ("dict", "[String: Any]")]

/-- The `RESPONSE_TYPE_MAP` dict, in source order. -/
def RESPONSE_TYPE_MAP : List (String × String) :=
  [("string", "String"), ("int", "Int"), ("integer", "Int"), ("long", "Int64"),
   ("float", "Double"), ("double", "Double"), ("number", "Double"),
   ("bool", "Bool"), ("boolean", "Bool")]

/-- Lookup in a literal dict with distinct keys: Python `d.get(k)`. -/
def mapGet (m : List (String × String)) (k : String) : Option String :=
  (m.find? (fun e => e.1 = k)).map (fun e => e.2)

/-- Embedding of `map_param_type`.  The second component records the
diagnostics the function emits: the source has no `warn` call here, so
an unrecognized name falls back to `"String"` silently. -/
def map_param_type (rawType : String) : String × List String :=
  ((mapGet PARAM_TYPE_MAP (pyLower (pyStrip rawType))).getD "String", [])

/-- Embedding of `map_response_scalar_type`: an unrecognized name falls
back to `"String"` with a `warn` diagnostic. -/
def map_response_scalar_type (rawType : String) : String × List String :=
  match mapGet RESPONSE_TYPE_MAP (pyLower (pyStrip rawType)) with
  | some t => (t, [])
  | none => ("String",
      ["unknown response type '" ++ rawType ++ "', defaulting to String"])

/-- Embedding of `map_response_type`: array annotations in the three
written forms recurse on the element name; bare `array`/`list` and
`object`/`map`/`dict` annotations are fatal. -/
def map_response_type (rawType : String) : Except String (String × List String) :=
  let raw := pyLower (pyStrip rawType)
  if ("[]".data.isSuffixOf raw.data) then
    let inner := String.mk (raw.data.take (raw.data.length - 2))
    let (t, w) := map_response_scalar_type inner
    .ok ("[" ++ t ++ "]", w)
  else if ("array<".data.isPrefixOf raw.data && ">".data.isSuffixOf raw.data) then
    let inner := String.mk ((raw.data.drop 6).dropLast)
    let (t, w) := map_response_scalar_type inner
    .ok ("[" ++ t ++ "]", w)
  else if ("[".data.isPrefixOf raw.data && "]".data.isSuffixOf raw.data) then
    let inner := String.mk ((raw.data.drop 1).dropLast)
    let (t, w) := map_response_scalar_type inner
    .ok ("[" ++ t ++ "]", w)
  else if raw = "array" ∨ raw = "list" then
    .error "response array type requires element type, e.g. items:[string] or items:array<int>"
  else if raw = "object" ∨ raw = "map" ∨ raw = "dict" then
    .error "response object type requires JSON schema or example payload"
  else .ok (map_response_scalar_type raw)

/-- Python `item.split(":", 1)` on the character list: the part before
the first colon and the part after it. -/
def split_once_colon (l : List Char) : List Char × List Char :=
  (l.takeWhile (fun c => c ≠ ':'), (l.dropWhile (fun c => c ≠ ':')).drop 1)

/-- The loop body of `parse_params` over the comma-separated items:
blank items are skipped, an item without a colon is fatal, otherwise
the name is stripped and the type mapped by `map_param_type`.  The
second component collects the (always absent) diagnostics. -/
def parseParamItems : List String → Except String (List (String × String) × List String)
  | [] => .ok ([], [])
  | item :: rest =>
    let it := pyStrip item
    if it = "" then parseParamItems rest
    else if !it.data.contains ':' then .error ("param missing type: " ++ it)
    else do
      let (n, r) := split_once_colon it.data
      let (t, w) := map_param_type (String.mk r)
      let (ps, ws) ← parseParamItems rest
      .ok ((pyStrip (String.mk n), t) :: ps, w ++ ws)

/-- Embedding of `parse_params`: an empty spec yields no parameters,
otherwise the comma-split items are processed in order. -/
def parse_params (paramStr : String) : Except String (List (String × String) × List String) :=
  if paramStr = "" then .ok ([], [])
  else parseParamItems (pySplit ',' paramStr)

/-- The `SWIFT_KEYWORDS` set. -/
def SWIFT_KEYWORDS : List String :=
  ["associatedtype", "class", "deinit", "enum", "extension", "fileprivate",
   "func", "import", "init", "inout", "internal", "let", "open", "operator",
   "private", "protocol", "public", "static", "struct", "subscript",
   "typealias", "var", "break", "case", "continue", "default", "defer", "do",
   "else", "fallthrough", "for", "guard", "if", "in", "repeat", "return",
   "switch", "where", "while", "as", "Any", "catch", "false", "is", "nil",
   "rethrows", "super", "self", "Self", "throw", "throws", "true", "try",
   "associativity", "convenience", "dynamic", "didSet", "final", "get",
   "infix", "indirect", "lazy", "left", "mutating", "none", "nonmutating",
   "optional", "override", "postfix", "precedence", "prefix", "Protocol",
   "required", "right", "set", "Type", "unowned", "weak", "willSet"]

/-- Body match of `[A-Za-z_][A-Za-z0-9_]*` on a character list. -/
def identBody : List Char -> Bool
  | [] => false
  | c :: rest => (c.isAlpha || c = '_') && rest.all isWordChar

/-- Match of `IDENTIFIER_PATTERN.match`, the anchored regex
`^[A-Za-z_][A-Za-z0-9_]*$`, with Python `$` semantics: `$` matches at
the end of the string or just before one newline at the very end, so a
valid identifier followed by a single trailing newline also matches
(e.g. `re.match` accepts `"abc\n"`). -/
def matchesIdentifier (s : String) : Bool :=
  identBody s.data ||
    (s.data.getLast? == some '\n' && identBody s.data.dropLast)

/-- Embedding of `format_property_name`: a valid identifier that is a
Swift keyword is escaped with backticks, a valid non-keyword identifier
is returned as is, and anything else is fatal. -/
def format_property_name (name : String) : Except String String :=
  if matchesIdentifier name then
    if SWIFT_KEYWORDS.contains name then .ok ("`" ++ name ++ "`")
    else .ok name
  else .error ("response field name '" ++ name ++
    "' is not a valid Swift identifier; strict spelling is required")

/-! ## Claim C10: parameter annotations default silently -/

theorem parseParamItems_error_iff (items : List String) :
    (∃ e, parseParamItems items = .error e) ↔
    ∃ item ∈ items, pyStrip item ≠ "" ∧ (pyStrip item).data.contains ':' = false := by
  induction items with
  | nil =>
    constructor
    · rintro ⟨e, he⟩
      cases he
    · rintro ⟨item, hmem, _⟩
      cases hmem
  | cons item rest ih =>
    constructor
    · rintro ⟨e, he⟩
      unfold parseParamItems at he
      by_cases hblank : pyStrip item = ""
      · rw [if_pos hblank] at he
        rcases ih.mp ⟨e, he⟩ with ⟨it, hmem, hp⟩
        exact ⟨it, by simp [hmem], hp⟩
      · rw [if_neg hblank] at he
        cases hcolon : (pyStrip item).data.contains ':' with
        | true =>
          rw [if_neg (by rw [hcolon]; decide)] at he
          simp only [bind, Except.bind] at he
          cases hrest : parseParamItems rest with
          | error e2 =>
            rcases ih.mp ⟨e2, hrest⟩ with ⟨it, hmem, hp⟩
            exact ⟨it, by simp [hmem], hp⟩
          | ok v =>
            rw [hrest] at he
            cases he
        | false => exact ⟨item, by simp, hblank, hcolon⟩
    · rintro ⟨it, hmem, hne, hnc⟩
      unfold parseParamItems
      by_cases hblank : pyStrip item = ""
      · rw [if_pos hblank]
        apply ih.mpr
        rcases List.mem_cons.mp hmem with rfl | hmem2
        · exact absurd hblank hne
        · exact ⟨it, hmem2, hne, hnc⟩
      · rw [if_neg hblank]
        cases hcolon : (pyStrip item).data.contains ':' with
        | true =>
          rw [if_neg (by decide)]
          rcases List.mem_cons.mp hmem with rfl | hmem2
          · rw [hcolon] at hnc
            cases hnc
          · rcases ih.mpr ⟨it, hmem2, hne, hnc⟩ with ⟨e2, he2⟩
            simp only [bind, Except.bind]
            rw [he2]
            exact ⟨_, rfl⟩
        | false =>
          rw [if_pos (by rfl)]
          exact ⟨_, rfl⟩

/-- C10: an unrecognized request-parameter type name is mapped to
`String` with no diagnostic at all, while an unrecognized response
scalar type name also defaults to `String` but emits a warning; and
`parse_params` fails exactly on a nonblank item that lacks a `:`
separator — no other parameter item is fatal. -/
theorem C10_param_type_defaults :
    (∀ raw : String, mapGet PARAM_TYPE_MAP (pyLower (pyStrip raw)) = none →
      map_param_type raw = ("String", [])) ∧
    (∀ raw : String, (map_param_type raw).2 = []) ∧
    (∀ raw : String, mapGet RESPONSE_TYPE_MAP (pyLower (pyStrip raw)) = none →
      map_response_scalar_type raw =
        ("String", ["unknown response type '" ++ raw ++ "', defaulting to String"])) ∧
    (∀ items : List String,
      (∃ e, parseParamItems items = .error e) ↔
      ∃ item ∈ items, pyStrip item ≠ "" ∧ (pyStrip item).data.contains ':' = false) := by
  refine ⟨?_, fun raw => rfl, ?_, parseParamItems_error_iff⟩
  · intro raw h
    unfold map_param_type
    rw [h]
    rfl
  · intro raw h
    unfold map_response_scalar_type
    rw [h]

/-- Witness for C10: the unknown annotation name `customtype` maps
silently to `String` for parameters but warns for response fields, and
the item `flag` without a colon is fatal while `a:int` is not. -/
theorem C10_param_type_defaults_witness :
    map_param_type "customtype" = ("String", []) ∧
    map_response_scalar_type "customtype" =
      ("String", ["unknown response type 'customtype', defaulting to String"]) ∧
    (∃ e, parseParamItems ["flag"] = .error e) ∧
    ¬ ∃ e, parseParamItems ["a:int"] = .error e :=
  ⟨C10_param_type_defaults.1 "customtype" (by decide),
   C10_param_type_defaults.2.2.1 "customtype" (by decide),
   (C10_param_type_defaults.2.2.2 ["flag"]).mpr ⟨"flag", by decide, by decide, by decide⟩,
   fun hc => by
     have := (C10_param_type_defaults.2.2.2 ["a:int"]).mp hc
     rcases this with ⟨it, hmem, hne, hnc⟩
     simp only [List.mem_singleton] at hmem
     subst hmem
     exact absurd hnc (by decide)⟩

/-! ## JSON values and the schema inference engine -/

/-- JSON values as produced by Python's `json.loads`: `jobj` models a
Python dict (keys unique, in insertion order); numbers are `jint` for
ints and `jfloat` for floats — the numeric value of a float never
influences inference, so `jfloat` carries no payload. -/
inductive JValue where
  | jnull
  | jbool (b : Bool)
  | jint (n : Int)
  | jfloat
  | jstr (s : String)
  | jarr (items : List JValue)
  | jobj (fields : List (String × JValue))

/-- Python `value is None`. -/
def isJNull : JValue → Bool
  | .jnull => true
  | _ => false

/-- Inference state: the accumulated struct sources, the run-scoped
name registry (`used`), and the `warn` diagnostics. -/
structure InferState where
  structs : List String
  used : List String
  warns : List String

/-- Append one diagnostic. -/
def addWarn (st : InferState) (m : String) : InferState :=
  { st with warns := st.warns ++ [m] }

/-- Python `"\n".join(lines)`. -/
def joinLines : List String → String
  | [] => ""
  | [l] => l
  | l :: rest => l ++ "\n" ++ joinLines rest

/-- Python `"\n\n".join(sections)`. -/
def joinParas : List String → String
  | [] => ""
  | [s] => s
  | s :: rest => s ++ "\n\n" ++ joinParas rest

/-- The `while True` suffix loop of `unique_struct_name`, trying
`f"{base}{idx}"` for `idx = 2, 3, ...` with fuel. -/
def uniqueLoop (base : String) (used : List String) : Nat → Nat → String
  | 0, idx => base ++ natToStr idx
  | fuel + 1, idx =>
    let c := base ++ natToStr idx
    if c ∉ used then c else uniqueLoop base used fuel (idx + 1)

/-- Embedding of `unique_struct_name`: take `base` if unused, else the
first free numeric-suffix candidate; the chosen name is added to the
run-scoped set. -/
def unique_struct_name (base : String) (used : List String) : String × List String :=
  if base ∉ used then (base, base :: used)
  else
    let c := uniqueLoop base used (used.length + 1) 2
    (c, c :: used)

/-- Embedding of `build_struct_definition`: fields are
`(prop_name, swift_type, original_key)` triples; a `CodingKeys` enum is
emitted exactly when some property name differs from its original
key, and such a case carries the original key as its raw value. -/
def build_struct_definition (structName : String)
    (fields : List (String × String × String)) : String :=
  let fieldLines := fields.map (fun f => "    let " ++ f.1 ++ ": " ++ f.2.1 ++ "?")
  let needsKeys := fields.any (fun f => f.1 ≠ f.2.2)
  let keyLines :=
    if needsKeys then
      ["", "    private enum CodingKeys: String, CodingKey \x7b"] ++
      fields.map (fun f =>
        if f.1 = f.2.2 then "        case " ++ f.1
        else "        case " ++ f.1 ++ " = \"" ++ f.2.2 ++ "\"") ++
      ["    \x7d"]
    else []
  joinLines (["struct " ++ structName ++ ": Codable \x7b"] ++ fieldLines ++ keyLines ++
    ["\x7d"])

/-- Embedding of `build_single_value_struct`: the synthetic single-field
container with symmetric single-value encode/decode. -/
def build_single_value_struct (structName propName swiftType : String) : String :=
  joinLines
    ["struct " ++ structName ++ ": Codable \x7b",
     "    let " ++ propName ++ ": " ++ swiftType,
     "",
     "    init(" ++ propName ++ ": " ++ swiftType ++ ") \x7b",
     "        self." ++ propName ++ " = " ++ propName,
     "    \x7d",
     "",
     "    init(from decoder: Decoder) throws \x7b",
     "        let container = try decoder.singleValueContainer()",
     "        " ++ propName ++ " = try container.decode(" ++ swiftType ++ ".self)",
     "    \x7d",
     "",
     "    func encode(to encoder: Encoder) throws \x7b",
     "        var container = encoder.singleValueContainer()",
     "        try container.encode(" ++ propName ++ ")",
     "    \x7d",
     "\x7d"]

mutual

/-- Embedding of `infer_json_type`: dispatch on the JSON value's type;
objects allocate a child record, arrays delegate to the element-type
inference, scalars map directly, and null defaults to `String` with a
warning. -/
def infer_json_type (v : JValue) (parentName key : String) (st : InferState) :
    Except String (String × InferState) :=
  match v with
  | .jobj fields =>
    let childBase := parentName ++ to_pascal_type key
    let (childName, used1) := unique_struct_name childBase st.used
    do
      let st1 ← build_struct_from_json childName fields { st with used := used1 }
      .ok (childName, st1)
  | .jarr items =>
    do
      let (elementType, st1) ← infer_list_element_type items parentName key st
      .ok ("[" ++ elementType ++ "]", st1)
  | .jbool _ => .ok ("Bool", st)
  | .jint _ => .ok ("Int", st)
  | .jfloat => .ok ("Double", st)
  | .jstr _ => .ok ("String", st)
  | .jnull => .ok ("String",
      addWarn st ("null or unknown response value for key '" ++ key ++
        "', defaulting to String"))
termination_by (sizeOf v, 0)

/-- Embedding of `infer_list_element_type`: the element type is decided
by the first non-null element; an empty or all-null array defaults to
`String` elements with a warning. -/
def infer_list_element_type (values : List JValue) (parentName key : String)
    (st : InferState) : Except String (String × InferState) :=
  match hnn : values.filter (fun v => !(isJNull v)) with
  | [] => .ok ("String",
      addWarn st ("empty array for key '" ++ key ++ "', defaulting to [String]"))
  | first :: _ =>
    match hf : first with
    | .jobj fields =>
      have hdec : sizeOf fields < sizeOf values := by
        have h1 : first ∈ List.filter (fun v => !(isJNull v)) values := by
          rw [hf, hnn]
          exact List.mem_cons_self _ _
        have h3 := List.sizeOf_lt_of_mem (List.mem_of_mem_filter h1)
        rw [hf] at h3
        have h4 : sizeOf (JValue.jobj fields) = 1 + sizeOf fields := by simp
        omega
      let childBase := parentName ++ to_pascal_type key ++ "Item"
      let (childName, used1) := unique_struct_name childBase st.used
      do
        let st1 ← build_struct_from_json childName fields { st with used := used1 }
        .ok (childName, st1)
    | .jarr items =>
      have hdec : sizeOf items < sizeOf values := by
        have h1 : first ∈ List.filter (fun v => !(isJNull v)) values := by
          rw [hf, hnn]
          exact List.mem_cons_self _ _
        have h3 := List.sizeOf_lt_of_mem (List.mem_of_mem_filter h1)
        rw [hf] at h3
        have h4 : sizeOf (JValue.jarr items) = 1 + sizeOf items := by simp
        omega
      do
        let (nested, st1) ← infer_list_element_type items parentName (key ++ "Item") st
        .ok ("[" ++ nested ++ "]", st1)
    | .jbool _ => .ok ("Bool", st)
    | .jint _ => .ok ("Int", st)
    | .jfloat => .ok ("Double", st)
    | .jstr _ => .ok ("String", st)
    | .jnull => .ok ("String",
        addWarn st ("unknown array element type for key '" ++ key ++
          "', defaulting to String"))
termination_by (sizeOf values, 0)

/-- The field loop of `build_struct_from_json`: each key is formatted
(fatally rejecting invalid identifiers), its value's type inferred, and
the `(prop_name, swift_type, original_key)` triple collected. -/
def buildFieldsLoop (structName : String) (fields : List (String × JValue))
    (st : InferState) : Except String (List (String × String × String) × InferState) :=
  match fields with
  | [] => .ok ([], st)
  | (key, value) :: rest =>
    do
      let propName ← format_property_name key
      let (swiftType, st1) ← infer_json_type value structName key st
      let (fs, st2) ← buildFieldsLoop structName rest st1
      .ok ((propName, swiftType, key) :: fs, st2)
termination_by (sizeOf fields, 0)

/-- Embedding of `build_struct_from_json`: infer all fields, then append
the finished struct source. -/
def build_struct_from_json (structName : String) (payload : List (String × JValue))
    (st : InferState) : Except String InferState :=
  do
    let (fields, st1) ← buildFieldsLoop structName payload st
    .ok { st1 with structs := st1.structs ++ [build_struct_definition structName fields] }
termination_by (sizeOf payload, 1)

end

/-- The response-field loop inside `build_response_models` for inline
`name:type` field lists. -/
def responseFieldsLoop : List (String × String) →
    Except String (List (String × String × String))
  | [] => .ok []
  | (name, swiftType) :: rest => do
    let propName ← format_property_name name
    let fs ← responseFieldsLoop rest
    .ok ((propName, swiftType, name) :: fs)

/-- Embedding of `build_response_models`: nothing to do without input;
inline field lists build one struct; a JSON payload is inferred, with a
synthetic single-value wrapper for top-level arrays and scalars.  The
second component collects the `warn` diagnostics. -/
def build_response_models (baseModelName : String) (responsePayload : Option JValue)
    (responseFields : List (String × String)) : Except String (String × List String) :=
  match responsePayload with
  | none =>
    if responseFields.isEmpty then .ok ("", [])
    else do
      let fields ← responseFieldsLoop responseFields
      .ok (build_struct_definition baseModelName fields, [])
  | some payload =>
    let st0 : InferState := ⟨[], [], []⟩
    match payload with
    | .jobj fields =>
      let (rootName, used1) := unique_struct_name baseModelName st0.used
      do
        let st1 ← build_struct_from_json rootName fields { st0 with used := used1 }
        .ok (joinParas st1.structs, st1.warns)
    | .jarr items =>
      do
        let (elementType, st1) ← infer_list_element_type items baseModelName "items" st0
        let (rootName, _) := unique_struct_name baseModelName st1.used
        .ok (joinParas (st1.structs ++
          [build_single_value_struct rootName "items" ("[" ++ elementType ++ "]")]),
          st1.warns)
    | .jbool _ =>
      let (rootName, _) := unique_struct_name baseModelName st0.used
      .ok (build_single_value_struct rootName "value" "Bool", [])
    | .jint _ =>
      let (rootName, _) := unique_struct_name baseModelName st0.used
      .ok (build_single_value_struct rootName "value" "Int", [])
    | .jfloat =>
      let (rootName, _) := unique_struct_name baseModelName st0.used
      .ok (build_single_value_struct rootName "value" "Double", [])
    | .jstr _ =>
      let (rootName, _) := unique_struct_name baseModelName st0.used
      .ok (build_single_value_struct rootName "value" "String", [])
    | .jnull =>
      let (rootName, _) := unique_struct_name baseModelName st0.used
      .ok (build_single_value_struct rootName "value" "String",
        ["unknown top-level response value, defaulting to String"])

/-- Python `d.get(k)` on a `jobj` field list (keys unique). -/
def objGet (fields : List (String × JValue)) (k : String) : Option JValue :=
  (fields.find? (fun e => e.1 = k)).map (fun e => e.2)

/-- Embedding of `extract_data_payload`: a dict payload with a present,
non-null `data` key yields that value; everything else yields no data. -/
def extract_data_payload (responsePayload : JValue) : Option JValue × Bool :=
  match responsePayload with
  | .jobj fields =>
    match objGet fields "data" with
    | none => (none, false)
    | some .jnull => (none, false)
    | some dataValue => (some dataValue, true)
  | _ => (none, false)

/-! ## Claims C6 and C7: property names and array element inference -/

/-- The dispatch of `infer_list_element_type` on the first non-null
element, factored out: the function's result depends on the array only
through this first non-null element (or its absence). -/
def inferFirst (first : JValue) (parentName key : String) (st : InferState) :
    Except String (String × InferState) :=
  match first with
  | .jobj fields =>
    let childBase := parentName ++ to_pascal_type key ++ "Item"
    let (childName, used1) := unique_struct_name childBase st.used
    do
      let st1 ← build_struct_from_json childName fields { st with used := used1 }
      .ok (childName, st1)
  | .jarr items =>
    do
      let (nested, st1) ← infer_list_element_type items parentName (key ++ "Item") st
      .ok ("[" ++ nested ++ "]", st1)
  | .jbool _ => .ok ("Bool", st)
  | .jint _ => .ok ("Int", st)
  | .jfloat => .ok ("Double", st)
  | .jstr _ => .ok ("String", st)
  | .jnull => .ok ("String",
      addWarn st ("unknown array element type for key '" ++ key ++
        "', defaulting to String"))

theorem infer_list_element_type_eq (values : List JValue) (parentName key : String)
    (st : InferState) :
    infer_list_element_type values parentName key st =
      match (values.filter (fun v => !(isJNull v))).head? with
      | none => .ok ("String",
          addWarn st ("empty array for key '" ++ key ++ "', defaulting to [String]"))
      | some first => inferFirst first parentName key st := by
  rw [infer_list_element_type]
  split
  · rename_i hnn
    conv_rhs => rw [hnn]
    rfl
  · rename_i first rest hnn
    conv_rhs => rw [hnn]
    simp only [List.head?]
    cases first <;> rfl

theorem filter_nonNull_nil (values : List JValue) (h : values.all isJNull = true) :
    values.filter (fun v => !(isJNull v)) = [] := by
  rw [List.filter_eq_nil_iff]
  intro a ha
  have := (List.all_eq_true.mp h) a ha
  simp [this]

/-- C7: during inference every array's element type is decided by its
first non-null element — two arrays with the same first non-null
element infer the same element type, whatever their other elements —
and an empty or all-null array yields element type `String` (the field
becomes `[String]`) together with one non-fatal diagnostic, never a
failure. -/
theorem C7_array_element_inference :
    (∀ (values : List JValue) (parentName key : String) (st : InferState),
      values.all isJNull = true →
      infer_list_element_type values parentName key st =
        .ok ("String",
          addWarn st ("empty array for key '" ++ key ++ "', defaulting to [String]"))) ∧
    (∀ (values : List JValue) (parentName key : String) (st : InferState),
      values.all isJNull = true →
      infer_json_type (.jarr values) parentName key st =
        .ok ("[String]",
          addWarn st ("empty array for key '" ++ key ++ "', defaulting to [String]"))) ∧
    (∀ (xs ys : List JValue) (parentName key : String) (st : InferState),
      (xs.filter (fun v => !(isJNull v))).head? =
        (ys.filter (fun v => !(isJNull v))).head? →
      infer_list_element_type xs parentName key st =
        infer_list_element_type ys parentName key st) := by
  have hnil : ∀ (values : List JValue) (parentName key : String) (st : InferState),
      values.all isJNull = true →
      infer_list_element_type values parentName key st =
        .ok ("String",
          addWarn st ("empty array for key '" ++ key ++ "', defaulting to [String]")) := by
    intro values parentName key st h
    rw [infer_list_element_type_eq, filter_nonNull_nil values h]
    rfl
  refine ⟨hnil, ?_, ?_⟩
  · intro values parentName key st h
    rw [infer_json_type]
    simp only [bind, Except.bind]
    rw [hnil values parentName key st h]
    rfl
  · intro xs ys parentName key st h
    rw [infer_list_element_type_eq, infer_list_element_type_eq, h]

/-- Witness for C7: the all-null array `[null, null]` warns and yields
`[String]`, and the arrays `[3, "x"]` and `[null, 3, true]` have the
same first non-null element `3`, hence the same element type. -/
theorem C7_array_element_inference_witness :
    infer_list_element_type [.jnull, .jnull] "M" "k" ⟨[], [], []⟩ =
      .ok ("String",
        addWarn ⟨[], [], []⟩ "empty array for key 'k', defaulting to [String]") ∧
    infer_json_type (.jarr [.jnull, .jnull]) "M" "k" ⟨[], [], []⟩ =
      .ok ("[String]",
        addWarn ⟨[], [], []⟩ "empty array for key 'k', defaulting to [String]") ∧
    infer_list_element_type [.jint 3, .jstr "x"] "M" "k" ⟨[], [], []⟩ =
      infer_list_element_type [.jnull, .jint 3, .jbool true] "M" "k" ⟨[], [], []⟩ :=
  ⟨C7_array_element_inference.1 [.jnull, .jnull] "M" "k" ⟨[], [], []⟩ (by rfl),
   C7_array_element_inference.2.1 [.jnull, .jnull] "M" "k" ⟨[], [], []⟩ (by rfl),
   C7_array_element_inference.2.2 [.jint 3, .jstr "x"] [.jnull, .jint 3, .jbool true]
     "M" "k" ⟨[], [], []⟩ (by rfl)⟩

/-- C6 (corrected): a JSON key that matches `IDENTIFIER_PATTERN` and is
a Swift keyword is escaped with backticks, not renamed; a matching
non-keyword key passes through unchanged; a key rejected by
`IDENTIFIER_PATTERN.match` is a fatal error; but because Python's `$`
also matches just before one trailing newline, a key consisting of a
valid strict identifier followed by a single newline is silently
accepted unchanged instead of being rejected; and the field triple
built for an escaped keyword key keeps the original key for the
generated coding keys. -/
theorem C6_identifier_escaping :
    (∀ name : String, matchesIdentifier name = true →
      SWIFT_KEYWORDS.contains name = true →
      format_property_name name = .ok ("`" ++ name ++ "`")) ∧
    (∀ name : String, matchesIdentifier name = true →
      SWIFT_KEYWORDS.contains name = false →
      format_property_name name = .ok name) ∧
    (∀ name : String, matchesIdentifier name = false →
      format_property_name name = .error ("response field name '" ++ name ++
        "' is not a valid Swift identifier; strict spelling is required")) ∧
    (∀ name : String, identBody name.data = true →
      format_property_name (name ++ "\n") = .ok (name ++ "\n")) ∧
    (∀ (key s structName : String) (st : InferState),
      matchesIdentifier key = true → SWIFT_KEYWORDS.contains key = true →
      buildFieldsLoop structName [(key, .jstr s)] st =
        .ok ([("`" ++ key ++ "`", "String", key)], st)) := by
  refine ⟨?_, ?_, ?_, ?_, ?_⟩
  · intro name h1 h2
    unfold format_property_name
    rw [if_pos h1, if_pos h2]
  · intro name h1 h2
    unfold format_property_name
    rw [if_pos h1, if_neg (by rw [h2]; exact Bool.false_ne_true)]
  · intro name h1
    unfold format_property_name
    rw [if_neg (by rw [h1]; exact Bool.false_ne_true)]
  · intro name h1
    have hdata : (name ++ "\n").data = name.data ++ ['\n'] := by
      rw [String.data_append]
    have hmatch : matchesIdentifier (name ++ "\n") = true := by
      unfold matchesIdentifier
      rw [hdata, List.getLast?_concat, List.dropLast_concat, h1]
      simp
    have hkw : SWIFT_KEYWORDS.contains (name ++ "\n") = false := by
      cases hc : SWIFT_KEYWORDS.contains (name ++ "\n") with
      | false => rfl
      | true =>
        have hmem : (name ++ "\n") ∈ SWIFT_KEYWORDS :=
          List.mem_of_elem_eq_true hc
        have hall : SWIFT_KEYWORDS.all
            (fun k => !(k.data.getLast? == some '\n')) = true := by decide
        have hx := List.all_eq_true.mp hall _ hmem
        rw [hdata, List.getLast?_concat] at hx
        simp at hx
    unfold format_property_name
    rw [if_pos hmatch, if_neg (by rw [hkw]; exact Bool.false_ne_true)]
  · intro key s structName st h1 h2
    rw [buildFieldsLoop]
    have hfmt : format_property_name key = .ok ("`" ++ key ++ "`") := by
      unfold format_property_name
      rw [if_pos h1, if_pos h2]
    rw [hfmt]
    simp only [bind, Except.bind]
    rw [infer_json_type]
    simp only [bind, Except.bind]
    rw [buildFieldsLoop]

/-- Witness for C6 at the keyword key `class`, the plain key `id`, the
invalid key `bad-key` and the trailing-newline key `abc\n`. -/
theorem C6_identifier_escaping_witness :
    format_property_name "class" = .ok "`class`" ∧
    format_property_name "id" = .ok "id" ∧
    format_property_name "bad-key" = .error
      "response field name 'bad-key' is not a valid Swift identifier; strict spelling is required" ∧
    format_property_name ("abc" ++ "\n") = .ok ("abc" ++ "\n") ∧
    buildFieldsLoop "M" [("class", .jstr "x")] ⟨[], [], []⟩ =
      .ok ([("`class`", "String", "class")], ⟨[], [], []⟩) :=
  ⟨C6_identifier_escaping.1 "class" (by decide) (by decide),
   C6_identifier_escaping.2.1 "id" (by decide) (by decide),
   C6_identifier_escaping.2.2.1 "bad-key" (by decide),
   C6_identifier_escaping.2.2.2.1 "abc" (by decide),
   C6_identifier_escaping.2.2.2.2 "class" "x" "M" ⟨[], [], []⟩ (by decide) (by decide)⟩

/-- C6 counterexample: the key made of `abc` plus a trailing newline
fails the strict full-string `[A-Za-z_][A-Za-z0-9_]*` check, yet
`format_property_name` silently accepts it unchanged, because
`IDENTIFIER_PATTERN.match` lets `$` match before the trailing
newline. -/
theorem C6_counterexample :
    identBody "abc\n".data = false ∧
    format_property_name "abc\n" = .ok "abc\n" := ⟨by decide, by rfl⟩

/-! ## The manifest document (`project.pbxproj`) and its patch engine -/

/-- Document text as a character list (a Python `str`). -/
abbrev Content := List Char

/-- Coerce a string literal to document text. -/
def s2c (s : String) : Content := s.data

/-- Characters of the regex class `\s` (as Python's `str.strip()` and
`\s` agree on ASCII). -/
def wsChar (c : Char) : Bool := isPyWs c

/-- Python `content.find(needle)`: the least index where `needle`
starts, if any. -/
def findSub : Content → Content → Option Nat
  | needle, [] => if needle.isEmpty then some 0 else none
  | needle, c :: t =>
    if needle.isPrefixOf (c :: t) then some 0
    else (findSub needle t).map (fun i => i + 1)

/-- Python `needle in content`. -/
def isSub (needle content : Content) : Bool := (findSub needle content).isSome

/-- Python `s.strip()` on document text. -/
def trimC (l : Content) : Content :=
  ((l.dropWhile wsChar).reverse.dropWhile wsChar).reverse

/-- Embedding of `insert_after_line`: a no-op when the stripped new line
already occurs; otherwise locate the needle, find the end of its line
and splice the new line in right after it. -/
def insert_after_line (content needle newLine : Content) : Except String Content :=
  if isSub (trimC newLine) content then .ok content
  else
    match findSub needle content with
    | none => .error ("failed to locate insertion point: " ++ String.mk needle)
    | some idx =>
      match findSub (s2c "\n") (content.drop idx) with
      | none => .error "unexpected file format"
      | some j =>
        let lineEnd := idx + j
        .ok (content.take (lineEnd + 1) ++ newLine ++ content.drop (lineEnd + 1))

/-- First index in `[start, start + fuel)` satisfying `q`: the leftmost
regex match position. -/
def firstIdxAux (q : Nat → Bool) : Nat → Nat → Option Nat
  | _, 0 => none
  | start, fuel + 1 => if q start then some start else firstIdxAux q (start + 1) fuel

/-- Match of the block-closing pattern `\n\s*C;` (with `C` the closing
bracket) at position `p`: the position regex engines give the lazy body
group's end. -/
def closeMarkAt (l : Content) (p : Nat) (closeChar : Char) : Bool :=
  match l.drop p with
  | '\n' :: rest => [closeChar, ';'].isPrefixOf (rest.dropWhile wsChar)
  | _ => false

/-- Leftmost closing-pattern position at or after `start`. -/
def firstClose (l : Content) (closeChar : Char) (start : Nat) : Option Nat :=
  firstIdxAux (fun p => closeMarkAt l p closeChar) start (l.length + 1 - start)

/-- Header match at a position. -/
def headerAt (l header : Content) (p : Nat) : Bool :=
  header.isPrefixOf (l.drop p)

/-- Embedding of `find_group_block`: locate
`{gid} /* {name} */ = {` + newline, take the lazily-matched body up to
the first `\n\s*};`, and return the body together with its bounds. -/
def find_group_block (content gid name : Content) :
    Except String (Content × Nat × Nat) :=
  let header := gid ++ s2c " /* " ++ name ++ s2c " */ = \x7b\n"
  match firstIdxAux (fun p => headerAt content header p &&
      (firstClose content '\x7d' (p + header.length)).isSome) 0 (content.length + 1) with
  | none => .error ("failed to locate " ++ String.mk name ++ " group in project.pbxproj")
  | some ph =>
    let bstart := ph + header.length
    match firstClose content '\x7d' bstart with
    | none => .error ("failed to locate " ++ String.mk name ++ " group in project.pbxproj")
    | some e => .ok ((content.drop bstart).take (e - bstart), bstart, e)

/-- The `children = (` region of a group body: the regex
`children = \(\n(children lazy)\n\s*\);` as bounds inside the body. -/
def findChildren (body : Content) : Option (Nat × Nat) :=
  let header := s2c "children = (\n"
  match firstIdxAux (fun p => headerAt body header p &&
      (firstClose body ')' (p + header.length)).isSome) 0 (body.length + 1) with
  | none => none
  | some ph =>
    let cs := ph + header.length
    match firstClose body ')' cs with
    | none => none
    | some ce => some (cs, ce)

/-- Embedding of `update_group_children`: find the group block and its
children list; if the artifact filename already occurs among the
children nothing changes, otherwise a new child line is appended at the
end of the list. -/
def update_group_children (content gid groupName fileRefId fn : Content) :
    Except String Content := do
  let (body, bstart, e) ← find_group_block content gid groupName
  match findChildren body with
  | none => .error ("failed to locate " ++ String.mk groupName ++ " group children")
  | some (cs, ce) =>
    let children := (body.drop cs).take (ce - cs)
    if isSub fn children then .ok content
    else
      let newChildLine := s2c "\t\t\t\t" ++ fileRefId ++ s2c " /* " ++ fn ++ s2c " */,"
      let newChildren := children ++ '\n' :: newChildLine
      let newBody := body.take cs ++ newChildren ++ body.drop ce
      .ok (content.take bstart ++ newBody ++ content.drop e)

/-- Uppercase-hex character class `[A-F0-9]`. -/
def hexChar (c : Char) : Bool := c.isDigit || ('A' ≤ c && c ≤ 'F')

/-- Match of `[A-F0-9]{24}` at a position. -/
def hex24At (l : Content) (p : Nat) : Bool :=
  (((l.drop p).take 24).length == 24) && ((l.drop p).take 24).all hexChar

/-- The fixed part of the `Networking` group header after the 24-char
identifier. -/
def networkingHeader : Content := s2c " /* Networking */ = \x7b\n"

/-- Search of `([A-F0-9]{24}) /* {childName} */` inside a children
list, returning the 24-character identifier. -/
def findChildRef (children childName : Content) : Option Content :=
  let tailPat := s2c " /* " ++ childName ++ s2c " */"
  match firstIdxAux (fun q => hex24At children q &&
      tailPat.isPrefixOf (children.drop (q + 24))) 0 (children.length + 1) with
  | none => none
  | some q => some ((children.drop q).take 24)

/-- The `finditer` loop of `find_networking_child_group_id`: scan the
`Networking` group blocks from position `p` on; for a block whose body
mentions `HostPath.swift` and has a children list containing the child
group's reference, return that reference's identifier; otherwise
continue after the block's closing marker.  Returns `[]` (Python `""`)
when no block matches. -/
def networkingScan (content childName : Content) : Nat → Nat → Content
  | _, 0 => []
  | p, fuel + 1 =>
    match firstIdxAux (fun q => hex24At content q &&
        headerAt content networkingHeader (q + 24) &&
        (firstClose content '\x7d' (q + 24 + networkingHeader.length)).isSome)
        p (content.length + 1 - p) with
    | none => []
    | some q =>
      let bstart := q + 24 + networkingHeader.length
      match firstClose content '\x7d' bstart with
      | none => []
      | some e =>
        let body := (content.drop bstart).take (e - bstart)
        let contPos := e + 1 + ((content.drop (e + 1)).takeWhile wsChar).length + 2
        if isSub (s2c "HostPath.swift") body then
          match findChildren body with
          | none => networkingScan content childName contPos fuel
          | some (cs, ce) =>
            let children := (body.drop cs).take (ce - cs)
            match findChildRef children childName with
            | some refId => refId
            | none => networkingScan content childName contPos fuel
        else networkingScan content childName contPos fuel

/-- Embedding of `find_networking_child_group_id`. -/
def find_networking_child_group_id (content childName : Content) : Content :=
  networkingScan content childName 0 (content.length + 1)

/-- The `hostpath_build_line` anchor needle. -/
def hostpath_build_needle : Content :=
  s2c "\t\t2ABA3CE027EDB030006B1E7E /* HostPath.swift in Sources */ = \x7bisa = PBXBuildFile; fileRef = 2ABA3CDF27EDB030006B1E7E /* HostPath.swift */; \x7d;"

/-- The `hostpath_file_ref_line` anchor needle. -/
def hostpath_file_ref_needle : Content :=
  s2c "\t\t2ABA3CDF27EDB030006B1E7E /* HostPath.swift */ = \x7bisa = PBXFileReference; lastKnownFileType = sourcecode.swift; path = HostPath.swift; sourceTree = \"<group>\"; \x7d;"

/-- The `sources_insert_needle` anchor needle. -/
def sources_needle : Content :=
  s2c "\t\t\t\t2ABA3CE027EDB030006B1E7E /* HostPath.swift in Sources */,"

/-- The generated `PBXBuildFile` record line. -/
def build_line (buildFileId fileRefId fn : Content) : Content :=
  s2c "\t\t" ++ buildFileId ++ s2c " /* " ++ fn ++
  s2c " in Sources */ = \x7bisa = PBXBuildFile; fileRef = " ++ fileRefId ++
  s2c " /* " ++ fn ++ s2c " */; \x7d;" ++ s2c "\n"

/-- The generated `PBXFileReference` record line. -/
def file_ref_line (fileRefId fn : Content) : Content :=
  s2c "\t\t" ++ fileRefId ++ s2c " /* " ++ fn ++
  s2c " */ = \x7bisa = PBXFileReference; lastKnownFileType = sourcecode.swift; path = " ++
  fn ++ s2c "; sourceTree = \"<group>\"; \x7d;" ++ s2c "\n"

/-- The generated compile-sources record line. -/
def sources_line (buildFileId fn : Content) : Content :=
  s2c "\t\t\t\t" ++ buildFileId ++ s2c " /* " ++ fn ++ s2c " in Sources */," ++ s2c "\n"

/-- Embedding of `update_pbxproj` on the document value: an early
return when the artifact filename already occurs anywhere in the
document (no write: second component `false`), otherwise the four-point
insertion using the freshly drawn identifiers (which, drawn by
`uuid.uuid4()`, are oracle inputs here), ending with a write (`true`).
The missing-group `warn` of the non-`require_group` mode is a skipped
insertion. -/
def update_pbxproj (content fn groupName buildFileId fileRefId : Content)
    (requireGroup : Bool) : Except String (Content × Bool) :=
  if isSub fn content then .ok (content, false)
  else do
    let c1 ← insert_after_line content hostpath_build_needle
      (build_line buildFileId fileRefId fn)
    let c2 ← insert_after_line c1 hostpath_file_ref_needle
      (file_ref_line fileRefId fn)
    let gid := find_networking_child_group_id c2 groupName
    let c3 ←
      if gid ≠ [] then update_group_children c2 gid groupName fileRefId fn
      else if requireGroup then
        .error (String.mk groupName ++
          " group under Swift Networking not found in project.pbxproj")
      else .ok c2
    let c4 ← insert_after_line c3 sources_needle (sources_line buildFileId fn)
    .ok (c4, true)

/-! ## Substring search facts -/

theorem findSub_some_prefix (needle t : Content) (i : Nat)
    (h : findSub needle t = some i) : needle <+: t.drop i := by
  induction t generalizing i with
  | nil =>
    unfold findSub at h
    split at h
    · rename_i he
      injection h with h1
      subst h1
      simp only [List.isEmpty_iff] at he
      simp [he]
    · cases h
  | cons c t ih =>
    unfold findSub at h
    split at h
    · rename_i hpre
      injection h with h1
      subst h1
      simpa using List.isPrefixOf_iff_prefix.mp hpre
    · cases hf : findSub needle t with
      | none => rw [hf] at h; cases h
      | some j =>
        rw [hf] at h
        simp only [Option.map] at h
        injection h with h1
        subst h1
        simpa using ih j hf

theorem isSub_iff_occurs (needle t : Content) : isSub needle t = true ↔ needle <:+: t := by
  constructor
  · intro h
    unfold isSub at h
    cases hf : findSub needle t with
    | none => rw [hf] at h; cases h
    | some i =>
      have hp := findSub_some_prefix needle t i hf
      exact hp.isInfix.trans (List.drop_suffix i t).isInfix
  · intro h
    induction t with
    | nil =>
      rcases h with ⟨s, u, hsu⟩
      have : needle = [] := by
        cases s <;> cases needle <;> simp_all
      unfold isSub findSub
      simp [this]
    | cons c t ih =>
      unfold isSub findSub
      by_cases hpre : needle.isPrefixOf (c :: t)
      · simp [hpre]
      · rw [if_neg hpre]
        rcases List.infix_cons_iff.mp h with hc | hc
        · exact absurd (List.isPrefixOf_iff_prefix.mpr hc) hpre
        · have := ih hc
          unfold isSub at this
          cases hf : findSub needle t with
          | none => rw [hf] at this; cases this
          | some j => simp [hf]

/-! ## Splicing preserves newline-free substrings -/

theorem infix_of_splice (f a b ins : Content) (hnl : '\n' ∉ f)
    (hside : a.getLast? = some '\n' ∨ b.head? = some '\n')
    (h : f <:+: a ++ b) : f <:+: a ++ ins ++ b := by
  rcases h with ⟨u, v, huv⟩
  by_cases h1 : u.length + f.length ≤ a.length
  · have hlen : (u ++ f).length ≤ a.length := by
      simp only [List.length_append]; omega
    have hp : u ++ f <+: a ++ b := ⟨v, huv⟩
    rw [List.prefix_iff_eq_take, List.take_append_eq_append_take,
      Nat.sub_eq_zero_of_le (by simpa using hlen), List.take_zero,
      List.append_nil] at hp
    have hpa : u ++ f <+: a := by
      rw [hp]
      exact List.take_prefix _ a
    have hfuf : f <:+: u ++ f := ⟨u, [], by simp⟩
    have hfa : f <:+: a := hfuf.trans hpa.isInfix
    exact hfa.trans (by rw [List.append_assoc]; exact (List.prefix_append a _).isInfix)
  · by_cases h2 : a.length ≤ u.length
    · have hfv : f ++ v = b.drop (u.length - a.length) := by
        have hd : (u ++ (f ++ v)).drop u.length = f ++ v := by
          have := List.drop_left u (f ++ v)
          exact this
        rw [← hd]
        have huv2 : u ++ (f ++ v) = a ++ b := by
          rw [← List.append_assoc]
          exact huv
        rw [huv2, List.drop_append_eq_append_drop, List.drop_eq_nil_of_le h2,
          List.nil_append]
      have hfb : f <:+: b := by
        have hpref : f <+: b.drop (u.length - a.length) := ⟨v, hfv⟩
        exact hpref.isInfix.trans (List.drop_suffix _ b).isInfix
      refine hfb.trans ?_
      exact (List.suffix_append (a ++ ins) b).isInfix
    · exfalso
      push_neg at h1 h2
      rcases hside with hlast | hhead
      · have hanil : a ≠ [] := by
          intro hc; rw [hc] at hlast; cases hlast
        have hapos : 0 < a.length := List.length_pos.mpr hanil
        have hia : a.length - 1 < a.length := by omega
        have hgeta : (a ++ b)[a.length - 1]? = some '\n' := by
          rw [List.getElem?_append_left hia]
          rw [List.getLast?_eq_getElem?] at hlast
          exact hlast
        have hgetf : (a ++ b)[a.length - 1]? = f[a.length - 1 - u.length]? := by
          rw [← huv, List.append_assoc,
            List.getElem?_append_right (by omega : u.length ≤ a.length - 1),
            List.getElem?_append_left (by omega : a.length - 1 - u.length < f.length)]
        rw [hgeta] at hgetf
        exact hnl (List.getElem?_mem hgetf.symm)
      · have hbnil : b ≠ [] := by
          intro hc; rw [hc] at hhead; cases hhead
        have hbpos : 0 < b.length := List.length_pos.mpr hbnil
        have hgetb : (a ++ b)[a.length]? = some '\n' := by
          rw [List.getElem?_append_right (Nat.le_refl _), Nat.sub_self]
          rw [List.head?_eq_getElem?] at hhead
          exact hhead
        have hgetf : (a ++ b)[a.length]? = f[a.length - u.length]? := by
          rw [← huv, List.append_assoc,
            List.getElem?_append_right (by omega : u.length ≤ a.length),
            List.getElem?_append_left (by omega : a.length - u.length < f.length)]
        rw [hgetb] at hgetf
        exact hnl (List.getElem?_mem hgetf.symm)

/-! ## Shapes of the three insertion operations -/

theorem insert_after_line_shape (content needle newLine r : Content)
    (h : insert_after_line content needle newLine = .ok r) :
    (isSub (trimC newLine) content = true ∧ r = content) ∨
    (∃ a b, content = a ++ b ∧ r = a ++ newLine ++ b ∧ a.getLast? = some '\n') := by
  unfold insert_after_line at h
  split at h
  · rename_i hsub
    left
    injection h with h1
    exact ⟨hsub, h1.symm⟩
  · rename_i hsub
    right
    cases hfind : findSub needle content with
    | none => rw [hfind] at h; cases h
    | some idx =>
      rw [hfind] at h
      dsimp only at h
      cases hnl : findSub (s2c "\n") (content.drop idx) with
      | none => rw [hnl] at h; cases h
      | some j =>
        rw [hnl] at h
        injection h with h1
        have hpre := findSub_some_prefix _ _ _ hnl
        rw [List.drop_drop] at hpre
        have hat : content[idx + j]? = some '\n' := by
          rcases hpre with ⟨t, ht⟩
          rw [← List.head?_drop]
          rw [← ht]
          rfl
        have hlt : idx + j < content.length := by
          cases hc : content[idx + j]? with
          | none =>
            rw [hc] at hat
            cases hat
          | some c =>
            by_contra hge
            push_neg at hge
            rw [List.getElem?_eq_none (by omega)] at hc
            cases hc
        refine ⟨content.take (idx + j + 1), content.drop (idx + j + 1),
          (List.take_append_drop _ content).symm, h1.symm, ?_⟩
        rw [List.take_succ]
        have : content[idx + j]?.toList = ['\n'] := by rw [hat]; rfl
        rw [this, List.getLast?_concat]

theorem firstIdxAux_some (q : Nat → Bool) (start fuel p : Nat)
    (h : firstIdxAux q start fuel = some p) : q p = true ∧ start ≤ p := by
  induction fuel generalizing start with
  | zero => cases h
  | succ fuel ih =>
    unfold firstIdxAux at h
    split at h
    · injection h with h1
      subst h1
      exact ⟨by assumption, Nat.le_refl _⟩
    · rcases ih (start + 1) h with ⟨hq, hle⟩
      exact ⟨hq, by omega⟩

theorem closeMarkAt_newline (l : Content) (p : Nat) (c : Char)
    (h : closeMarkAt l p c = true) : (l.drop p).head? = some '\n' := by
  unfold closeMarkAt at h
  split at h
  · rename_i rest heq
    rw [heq]
    rfl
  · cases h

theorem drop_head_newline_lt (l : Content) (p : Nat)
    (h : (l.drop p).head? = some '\n') : p < l.length := by
  by_contra hge
  push_neg at hge
  rw [List.drop_eq_nil_of_le hge] at h
  cases h

theorem decomp_of_region (l : Content) (s e : Nat) (hse : s ≤ e)
    (hel : e ≤ l.length) :
    l = l.take s ++ (l.drop s).take (e - s) ++ l.drop e := by
  have h1 : (l.drop s).take (e - s) ++ (l.drop s).drop (e - s) = l.drop s :=
    List.take_append_drop _ _
  rw [List.drop_drop] at h1
  have h2 : s + (e - s) = e := by omega
  rw [h2] at h1
  rw [List.append_assoc, h1, List.take_append_drop]

theorem find_group_block_ok (content gid name body : Content) (bstart e : Nat)
    (h : find_group_block content gid name = .ok (body, bstart, e)) :
    body = (content.drop bstart).take (e - bstart) ∧ bstart ≤ e ∧
      (content.drop e).head? = some '\n' := by
  rw [show find_group_block content gid name =
      (match firstIdxAux (fun p => headerAt content
           (gid ++ s2c " /* " ++ name ++ s2c " */ = \x7b\n") p &&
           (firstClose content '\x7d'
             (p + (gid ++ s2c " /* " ++ name ++ s2c " */ = \x7b\n").length)).isSome) 0
           (content.length + 1) with
       | none => .error ("failed to locate " ++ String.mk name ++
           " group in project.pbxproj")
       | some ph =>
         match firstClose content '\x7d'
             (ph + (gid ++ s2c " /* " ++ name ++ s2c " */ = \x7b\n").length) with
         | none => .error ("failed to locate " ++ String.mk name ++
             " group in project.pbxproj")
         | some e => .ok ((content.drop
             (ph + (gid ++ s2c " /* " ++ name ++ s2c " */ = \x7b\n").length)).take
             (e - (ph + (gid ++ s2c " /* " ++ name ++ s2c " */ = \x7b\n").length)),
             ph + (gid ++ s2c " /* " ++ name ++ s2c " */ = \x7b\n").length, e))
      from rfl] at h
  split at h
  · cases h
  · rename_i ph hfirst
    cases hclose : firstClose content '\x7d'
        (ph + (gid ++ s2c " /* " ++ name ++ s2c " */ = \x7b\n").length) with
    | none => rw [hclose] at h; cases h
    | some e2 =>
      rw [hclose] at h
      injection h with h1
      obtain ⟨hb, hs, he⟩ : body = (content.drop
          (ph + (gid ++ s2c " /* " ++ name ++ s2c " */ = \x7b\n").length)).take
          (e2 - (ph + (gid ++ s2c " /* " ++ name ++ s2c " */ = \x7b\n").length)) ∧
          bstart = ph + (gid ++ s2c " /* " ++ name ++ s2c " */ = \x7b\n").length ∧
          e = e2 := by
        have := h1.symm
        exact ⟨congrArg Prod.fst this,
          congrArg (fun x => x.2.1) this, congrArg (fun x => x.2.2) this⟩
      subst hs he
      rcases firstIdxAux_some _ _ _ _ hclose with ⟨hq, hle⟩
      exact ⟨hb, hle, closeMarkAt_newline _ _ _ hq⟩

theorem findChildren_some (body : Content) (cs ce : Nat)
    (h : findChildren body = some (cs, ce)) :
    cs ≤ ce ∧ (body.drop ce).head? = some '\n' := by
  rw [show findChildren body =
      (match firstIdxAux (fun p => headerAt body (s2c "children = (\n") p &&
           (firstClose body ')' (p + (s2c "children = (\n").length)).isSome) 0
           (body.length + 1) with
       | none => none
       | some ph =>
         match firstClose body ')' (ph + (s2c "children = (\n").length) with
         | none => none
         | some ce => some (ph + (s2c "children = (\n").length, ce))
      from rfl] at h
  split at h
  · cases h
  · rename_i ph hfirst
    cases hclose : firstClose body ')' (ph + (s2c "children = (\n").length) with
    | none => rw [hclose] at h; cases h
    | some ce2 =>
      rw [hclose] at h
      injection h with h1
      have hcs : cs = ph + (s2c "children = (\n").length := (congrArg Prod.fst h1).symm
      have hce : ce = ce2 := (congrArg Prod.snd h1).symm
      subst hcs hce
      rcases firstIdxAux_some _ _ _ _ hclose with ⟨hq, hle⟩
      exact ⟨hle, closeMarkAt_newline _ _ _ hq⟩

theorem update_group_children_shape (content gid groupName fileRefId fn r : Content)
    (h : update_group_children content gid groupName fileRefId fn = .ok r) :
    r = content ∨
    ∃ a b ins, content = a ++ b ∧ r = a ++ ins ++ b ∧ b.head? = some '\n' := by
  unfold update_group_children at h
  cases hb : find_group_block content gid groupName with
  | error e => rw [hb] at h; cases h
  | ok res =>
    obtain ⟨body, bstart, bend⟩ := res
    rw [hb] at h
    simp only [bind, Except.bind] at h
    rcases find_group_block_ok content gid groupName body bstart bend hb with
      ⟨hbody, hse, hnl⟩
    have hbendlt : bend < content.length := drop_head_newline_lt _ _ hnl
    cases hc : findChildren body with
    | none => rw [hc] at h; cases h
    | some csce =>
      obtain ⟨cs, ce⟩ := csce
      rw [hc] at h
      dsimp only at h
      rcases findChildren_some body cs ce hc with ⟨hcsce, hcnl⟩
      have hcelt : ce < body.length := drop_head_newline_lt _ _ hcnl
      split at h
      · left
        injection h with h1
        exact h1.symm
      · right
        injection h with h1
        refine ⟨content.take bstart ++ body.take cs ++ (body.drop cs).take (ce - cs),
          body.drop ce ++ content.drop bend,
          '\n' :: (s2c "\t\t\t\t" ++ fileRefId ++ s2c " /* " ++ fn ++ s2c " */,"),
          ?_, ?_, ?_⟩
        · have hb2 : body = body.take cs ++ (body.drop cs).take (ce - cs) ++
              body.drop ce := decomp_of_region body cs ce hcsce (by omega)
          have hc2 : content = content.take bstart ++ body ++ content.drop bend := by
            have := decomp_of_region content bstart bend hse (by omega)
            rw [← hbody] at this
            exact this
          have hkey : (content.take bstart ++ body.take cs ++
              (body.drop cs).take (ce - cs)) ++
              (body.drop ce ++ content.drop bend) = content := by
            have h3 : body.take cs ++ (body.drop cs).take (ce - cs) ++ body.drop ce =
              body := hb2.symm
            calc (content.take bstart ++ body.take cs ++
                  (body.drop cs).take (ce - cs)) ++
                  (body.drop ce ++ content.drop bend)
                = content.take bstart ++
                  (body.take cs ++ (body.drop cs).take (ce - cs) ++ body.drop ce) ++
                  content.drop bend := by simp [List.append_assoc]
              _ = content.take bstart ++ body ++ content.drop bend := by rw [h3]
              _ = content := hc2.symm
          exact hkey.symm
        · rw [← h1]
          simp [List.append_assoc]
        · rw [List.head?_append]
          rw [hcnl]
          rfl

/-! ## The stripped build line still contains the artifact filename -/

theorem trimC_sandwich (w1 z w2 : Content) (hw1 : ∀ c ∈ w1, wsChar c = true)
    (hw2 : ∀ c ∈ w2, wsChar c = true)
    (hhead : ∃ c r, z = c :: r ∧ wsChar c = false)
    (hlast : ∃ c r, z = r ++ [c] ∧ wsChar c = false) :
    trimC (w1 ++ z ++ w2) = z := by
  rcases hhead with ⟨c, rest, hz, hc⟩
  rcases hlast with ⟨d, front, hz2, hd⟩
  unfold trimC
  have hstep1 : (w1 ++ z ++ w2).dropWhile wsChar = z ++ w2 := by
    rw [List.append_assoc, List.dropWhile_append]
    rw [if_pos]
    · rw [hz]
      rw [List.cons_append, List.dropWhile_cons, if_neg (by rw [hc]; exact
          Bool.false_ne_true), ← List.cons_append, ← hz]
    · simp only [List.isEmpty_iff, List.dropWhile_eq_nil_iff]
      exact hw1
  rw [hstep1]
  have hstep2 : (z ++ w2).reverse.dropWhile wsChar = z.reverse := by
    rw [List.reverse_append, List.dropWhile_append]
    rw [if_pos]
    · rw [hz2, List.reverse_append]
      simp only [List.reverse_cons, List.reverse_nil, List.nil_append,
        List.cons_append]
      rw [List.dropWhile_cons, if_neg (by rw [hd]; exact Bool.false_ne_true)]
    · simp only [List.isEmpty_iff, List.dropWhile_eq_nil_iff]
      intro x hx
      exact hw2 x (List.mem_reverse.mp hx)
  rw [hstep2, List.reverse_reverse]

theorem fn_infix_trim_build_line (buildFileId fileRefId fn : Content)
    (hbid : ∃ c r, buildFileId = c :: r ∧ wsChar c = false) :
    fn <:+: trimC (build_line buildFileId fileRefId fn) := by
  rcases hbid with ⟨c, r, hb, hc⟩
  have hline : build_line buildFileId fileRefId fn =
      s2c "\t\t" ++ (buildFileId ++ s2c " /* " ++ fn ++
        s2c " in Sources */ = \x7bisa = PBXBuildFile; fileRef = " ++ fileRefId ++
        s2c " /* " ++ fn ++ s2c " */; \x7d" ++ [';']) ++ s2c "\n" := by
    unfold build_line
    simp [List.append_assoc, s2c]
  rw [hline, trimC_sandwich]
  · have : fn <:+: (buildFileId ++ s2c " /* ") ++ fn ++
        (s2c " in Sources */ = \x7bisa = PBXBuildFile; fileRef = " ++ fileRefId ++
          s2c " /* " ++ fn ++ s2c " */; \x7d" ++ [';']) := List.infix_append _ _ _
    refine this.trans (by simp [List.append_assoc])
  · intro x hx
    have hx2 : x ∈ ['\t', '\t'] := hx
    rcases List.mem_cons.mp hx2 with rfl | hx3
    · decide
    · rcases List.mem_cons.mp hx3 with rfl | hx4
      · decide
      · cases hx4
  · intro x hx
    have hx2 : x ∈ ['\n'] := hx
    rcases List.mem_cons.mp hx2 with rfl | hx3
    · decide
    · cases hx3
  · exact ⟨c, r ++ s2c " /* " ++ fn ++
      s2c " in Sources */ = \x7bisa = PBXBuildFile; fileRef = " ++ fileRefId ++
      s2c " /* " ++ fn ++ s2c " */; \x7d" ++ [';'],
      by rw [hb]; simp [List.append_assoc], hc⟩
  · refine ⟨';', buildFileId ++ s2c " /* " ++ fn ++
      s2c " in Sources */ = \x7bisa = PBXBuildFile; fileRef = " ++ fileRefId ++
      s2c " /* " ++ fn ++ s2c " */; \x7d", by simp [List.append_assoc], by rfl⟩

theorem fn_infix_build_line (buildFileId fileRefId fn : Content) :
    fn <:+: build_line buildFileId fileRefId fn := by
  have h : fn <:+: (s2c "\t\t" ++ buildFileId ++ s2c " /* ") ++ fn ++
      (s2c " in Sources */ = \x7bisa = PBXBuildFile; fileRef = " ++ fileRefId ++
        s2c " /* " ++ fn ++ s2c " */; \x7d;" ++ s2c "\n") := List.infix_append _ _ _
  refine h.trans ?_
  unfold build_line
  simp [List.append_assoc]

theorem update_pbxproj_ok_infix (content fn groupName buildFileId fileRefId : Content)
    (requireGroup : Bool) (c1 : Content) (w : Bool)
    (hnl : '\n' ∉ fn)
    (hbid : ∃ c r, buildFileId = c :: r ∧ wsChar c = false)
    (hnotin : isSub fn content = false)
    (h : update_pbxproj content fn groupName buildFileId fileRefId requireGroup =
      .ok (c1, w)) :
    fn <:+: c1 := by
  unfold update_pbxproj at h
  rw [if_neg (by rw [hnotin]; exact Bool.false_ne_true)] at h
  simp only [bind, Except.bind] at h
  cases h1 : insert_after_line content hostpath_build_needle
      (build_line buildFileId fileRefId fn) with
  | error e => rw [h1] at h; cases h
  | ok d1 =>
    rw [h1] at h
    dsimp only at h
    have hfn1 : fn <:+: d1 := by
      rcases insert_after_line_shape _ _ _ _ h1 with ⟨hsub, heq⟩ | ⟨a, b, hab, hr, _⟩
      · exfalso
        have htr := (isSub_iff_occurs _ _).mp hsub
        have hfc := (fn_infix_trim_build_line buildFileId fileRefId fn hbid).trans htr
        rw [(isSub_iff_occurs _ _).mpr hfc] at hnotin
        cases hnotin
      · rw [hr]
        exact (fn_infix_build_line buildFileId fileRefId fn).trans
          (List.infix_append a _ b)
    cases h2 : insert_after_line d1 hostpath_file_ref_needle
        (file_ref_line fileRefId fn) with
    | error e => rw [h2] at h; cases h
    | ok d2 =>
      rw [h2] at h
      dsimp only at h
      have hfn2 : fn <:+: d2 := by
        rcases insert_after_line_shape _ _ _ _ h2 with ⟨_, rfl⟩ | ⟨a, b, hab, hr, hlast⟩
        · exact hfn1
        · rw [hab] at hfn1
          rw [hr]
          exact infix_of_splice fn a b _ hnl (Or.inl hlast) hfn1
      by_cases hgid : find_networking_child_group_id d2 groupName ≠ []
      · rw [if_pos hgid] at h
        cases h3 : update_group_children d2
            (find_networking_child_group_id d2 groupName) groupName fileRefId fn with
        | error e => rw [h3] at h; cases h
        | ok d3 =>
          rw [h3] at h
          dsimp only at h
          have hfn3 : fn <:+: d3 := by
            rcases update_group_children_shape _ _ _ _ _ _ h3 with rfl |
              ⟨a, b, ins, hab, hr, hhead⟩
            · exact hfn2
            · rw [hab] at hfn2
              rw [hr]
              exact infix_of_splice fn a b ins hnl (Or.inr hhead) hfn2
          cases h4 : insert_after_line d3 sources_needle
              (sources_line buildFileId fn) with
          | error e => rw [h4] at h; cases h
          | ok d4 =>
            rw [h4] at h
            dsimp only at h
            injection h with h5
            have hc1 : c1 = d4 := (congrArg Prod.fst h5).symm
            subst hc1
            rcases insert_after_line_shape _ _ _ _ h4 with ⟨_, rfl⟩ |
              ⟨a, b, hab, hr, hlast⟩
            · exact hfn3
            · rw [hab] at hfn3
              rw [hr]
              exact infix_of_splice fn a b _ hnl (Or.inl hlast) hfn3
      · rw [if_neg hgid] at h
        cases hrg : requireGroup with
        | true => rw [hrg] at h; simp at h
        | false =>
          rw [hrg] at h
          simp only [Bool.false_eq_true, if_false] at h
          cases h4 : insert_after_line d2 sources_needle
              (sources_line buildFileId fn) with
          | error e => rw [h4] at h; cases h
          | ok d4 =>
            rw [h4] at h
            dsimp only at h
            injection h with h5
            have hc1 : c1 = d4 := (congrArg Prod.fst h5).symm
            subst hc1
            rcases insert_after_line_shape _ _ _ _ h4 with ⟨_, rfl⟩ |
              ⟨a, b, hab, hr, hlast⟩
            · exact hfn2
            · rw [hab] at hfn2
              rw [hr]
              exact infix_of_splice fn a b _ hnl (Or.inl hlast) hfn2

/-! ## Claim C2: idempotence of the manifest patch -/

/-- C2: if the artifact filename already occurs anywhere in the
manifest document, the patch returns the document unchanged (and does
not write); consequently, once a patch application has succeeded, any
second application with the same filename — whatever fresh identifiers
it draws — returns the byte-identical document.  Hypotheses: the
filename contains no newline (it is `{PascalCase}.swift`) and the drawn
build-file identifier is a nonempty non-whitespace-leading token (it is
24 uppercase hex characters). -/
theorem C2_manifest_patch_idempotent (content fn groupName buildFileId fileRefId :
      Content) (requireGroup : Bool)
    (hnl : '\n' ∉ fn)
    (hbid : ∃ c r, buildFileId = c :: r ∧ wsChar c = false) :
    (isSub fn content = true →
      update_pbxproj content fn groupName buildFileId fileRefId requireGroup =
        .ok (content, false)) ∧
    (∀ (c1 : Content) (w : Bool),
      update_pbxproj content fn groupName buildFileId fileRefId requireGroup =
        .ok (c1, w) →
      ∀ buildFileId2 fileRefId2 : Content,
        update_pbxproj c1 fn groupName buildFileId2 fileRefId2 requireGroup =
          .ok (c1, false)) := by
  have hearly : ∀ (c : Content) (b1 b2 : Content), isSub fn c = true →
      update_pbxproj c fn groupName b1 b2 requireGroup = .ok (c, false) := by
    intro c b1 b2 hc
    unfold update_pbxproj
    rw [if_pos hc]
  refine ⟨hearly content buildFileId fileRefId, ?_⟩
  intro c1 w h bid2 rid2
  cases hsub : isSub fn content with
  | true =>
    rw [hearly content buildFileId fileRefId hsub] at h
    injection h with h1
    have hc1 : c1 = content := (congrArg Prod.fst h1).symm
    subst hc1
    exact hearly c1 bid2 rid2 hsub
  | false =>
    have hfn := update_pbxproj_ok_infix content fn groupName buildFileId fileRefId
      requireGroup c1 w hnl hbid hsub h
    exact hearly c1 bid2 rid2 ((isSub_iff_occurs _ _).mpr hfn)

/-- Witness for C2: a document already containing `X.swift` is returned
unchanged, and re-application after a successful application is a
no-op. -/
theorem C2_manifest_patch_idempotent_witness :
    update_pbxproj (s2c "X.swift") (s2c "X.swift") (s2c "Request") (s2c "B")
      (s2c "R") true = .ok (s2c "X.swift", false) ∧
    update_pbxproj (s2c "X.swift") (s2c "X.swift") (s2c "Request") (s2c "C")
      (s2c "S") true = .ok (s2c "X.swift", false) := by
  have hmain := C2_manifest_patch_idempotent (s2c "X.swift") (s2c "X.swift")
    (s2c "Request") (s2c "B") (s2c "R") true (by decide)
    ⟨'B', [], rfl, by decide⟩
  have h1 := hmain.1 (by decide)
  exact ⟨h1, hmain.2 (s2c "X.swift") false h1 (s2c "C") (s2c "S")⟩

/-! ## The orchestrator: `main` from the registry update onward -/

/-- Embedding of `build_request_class`. -/
def build_request_class (className hostName pathName : String)
    (params : List (String × String)) : String :=
  joinLines
    (["import FalconFoundation", "",
      "@objcMembers class " ++ className ++ ": HJServiceRequestInfoBase \x7b"] ++
     params.map (fun p => "    var " ++ p.1 ++ ": " ++ p.2 ++ "?") ++
     ["",
      "    override var host: String \x7b Host." ++ hostName ++ ".rawValue \x7d",
      "",
      "    override var path: String \x7b Path." ++ pathName ++ ".rawValue \x7d",
      "",
      "    override var params: [AnyHashable : Any] \x7b",
      "        return pep_dictionaryWithValues(forExceptKeys: HJServiceRequestInfoBase.pep_allPropertyKeys as! [String])",
      "    \x7d",
      "\x7d"])

/-- Embedding of `build_request_method`: the method is upper-cased and
only `GET` and `POST` are supported — anything else is fatal. -/
def build_request_method (className : String) (params : List (String × String))
    (method : String) : Except String String :=
  let m := pyUpper method
  if m = "GET" ∨ m = "POST" then
    let callLine :=
      if m = "GET" then
        "    pep_networkTaskController.getRequestInfo(request) \x7b _, err in"
      else
        "    pep_networkTaskController.postJSONRequestInfo(request) \x7b [weak self] result, err in"
    .ok (joinLines
      (["// func request() \x7b", "//     let request = " ++ className ++ "()"] ++
       params.map (fun p => "//     request." ++ p.1 ++ " = <#" ++ p.1 ++ "#>") ++
       ["//" ++ callLine,
        "//         if err != nil \x7b",
        "//             DDLogError(\" error \\(String(describing: err?.localizedDescription))\")",
        "//         \x7d",
        "//     \x7d",
        "// \x7d"]))
  else .error ("unsupported method: " ++ m)

/-- The `--output-mode` choices. -/
inductive Mode where
  | print
  | files
  | full
deriving DecidableEq

/-- The observable effects of one run of `main` from the registry
update onward: the on-disk registry document, which files were
written, the printed/diagnostic flags and the fatal error, if any.  On
a fatal error the fields record the writes performed before death. -/
structure RunResult where
  registry : RegistryDoc
  registryWritten : Bool
  printed : Bool
  requestWritten : Bool
  modelWritten : Bool
  pbx : Content
  pbxWritten : Bool
  noDataDiag : Bool
  models : String
  err : Option String
deriving DecidableEq

/-- The response-handling block of `main` (lines 682-691): a payload
without usable `data` yields no models and the no-data diagnostic, a
usable payload is inferred, and an inline field list is built directly;
the flag is the `note_no_data` diagnostic. -/
def responseStep (baseModelName : String) (responsePayload : Option JValue)
    (responseFields : List (String × String)) : Except String (String × Bool) :=
  match responsePayload with
  | some payload =>
    match extract_data_payload payload with
    | (_, false) => .ok ("", true)
    | (some dataPayload, true) =>
      (build_response_models baseModelName (some dataPayload) []).map
        (fun r => (r.1, false))
    | (none, true) => .ok ("", false)
  | none =>
    if responseFields.isEmpty then .ok ("", false)
    else (build_response_models baseModelName none responseFields).map
      (fun r => (r.1, false))

/-- Embedding of `main` from line 648 on (after argument parsing, path
resolution and response acquisition, which are I/O): the registry is
merged and written first — `write_hostpath` is `True` for every output
mode — then the parameters are parsed, the request sources built (the
method check dying here), the response handled, and finally the output
mode decides what else is written.  `uuid4` identifiers for the two
possible manifest patches are oracle inputs. -/
def runMain (method path summary server paramStr : String)
    (responsePayload : Option JValue) (responseFields : List (String × String))
    (mode : Mode) (doc : RegistryDoc) (pbx : Content)
    (reqBid reqRid modBid modRid : Content) : RunResult :=
  match update_host_path doc path summary server with
  | .error e => ⟨doc, false, false, false, false, pbx, false, false, "", some e⟩
  | .ok (doc2, hostName, pathName, changed) =>
    let registry := if changed then doc2 else doc
    let registryWritten := changed
    let baseClass := to_pascal path
    let className := baseClass ++ "Request"
    match parse_params paramStr with
    | .error e =>
      ⟨registry, registryWritten, false, false, false, pbx, false, false, "", some e⟩
    | .ok (params, _) =>
      let _requestClassSource := build_request_class className hostName pathName params
      match build_request_method className params method with
      | .error e =>
        ⟨registry, registryWritten, false, false, false, pbx, false, false, "", some e⟩
      | .ok _requestMethodSource =>
        let baseModelName := baseClass ++ "Model"
        match responseStep baseModelName responsePayload responseFields with
        | .error e =>
          ⟨registry, registryWritten, false, false, false, pbx, false, false, "",
            some e⟩
        | .ok (models, noData) =>
          match mode with
          | .print =>
            ⟨registry, registryWritten, true, false, false, pbx, false, noData,
              models, none⟩
          | .files =>
            ⟨registry, registryWritten, false, true, models != "", pbx, false,
              noData, models, none⟩
          | .full =>
            match update_pbxproj pbx (s2c (className ++ ".swift")) (s2c "Request")
                reqBid reqRid true with
            | .error e =>
              ⟨registry, registryWritten, false, true, models != "", pbx, false,
                noData, models, some e⟩
            | .ok (pbx2, w1) =>
              if models != "" then
                match update_pbxproj pbx2 (s2c (baseModelName ++ ".swift"))
                    (s2c "Model") modBid modRid true with
                | .error e =>
                  ⟨registry, registryWritten, false, true, true, pbx2, w1, noData,
                    models, some e⟩
                | .ok (pbx3, w2) =>
                  ⟨registry, registryWritten, false, true, true, pbx3, w1 || w2,
                    noData, models, none⟩
              else
                ⟨registry, registryWritten, false, true, false, pbx2, w1, noData,
                  models, none⟩

/-! ## Claim C4: an unsupported method dies after the registry write -/

/-- C4 (the code contradicts the claim): with method `PUT`, a path and
domain not yet in the registry and the default `files` output mode, the
run dies with `unsupported method: PUT` — but only after
`update_host_path` has already written both new bindings into the
registry document: `registryWritten = true` and the on-disk registry
has grown, so a configuration error does not abort before document
mutation. -/
theorem C4_method_error_after_registry_write :
    runMain "PUT" "/foo/bar" "s" "a.example.com" "" none [] .files
      ⟨[], [], true, true⟩ [] [] [] [] [] =
    ⟨⟨[("a", "a.example.com")], [⟨"s", "fooBar", "/foo/bar"⟩], true, true⟩,
      true, false, false, false, [], false, false, "",
      some "unsupported method: PUT"⟩ := by
  rfl

/-! ## Claim C5: print mode still writes the registry -/

/-- C5 (amended): in the print output mode the generated request and
model files and the manifest are indeed not written and the manifest
text is untouched — but the registry write is not suppressed:
`update_host_path` is invoked with `write_changes=True` in every output
mode, so whenever the merge changes the document the registry file is
written in print mode too (and the resolved names are still used). -/
theorem C5_print_mode_writes_registry :
    ∀ (method path summary server paramStr : String) (rp : Option JValue)
      (rf : List (String × String)) (doc : RegistryDoc) (pbx : Content)
      (i1 i2 i3 i4 : Content),
      (runMain method path summary server paramStr rp rf .print doc pbx
        i1 i2 i3 i4).requestWritten = false ∧
      (runMain method path summary server paramStr rp rf .print doc pbx
        i1 i2 i3 i4).modelWritten = false ∧
      (runMain method path summary server paramStr rp rf .print doc pbx
        i1 i2 i3 i4).pbxWritten = false ∧
      (runMain method path summary server paramStr rp rf .print doc pbx
        i1 i2 i3 i4).pbx = pbx ∧
      (∀ (d2 : RegistryDoc) (hn pn : String),
        update_host_path doc path summary server = .ok (d2, hn, pn, true) →
        (runMain method path summary server paramStr rp rf .print doc pbx
          i1 i2 i3 i4).registryWritten = true ∧
        (runMain method path summary server paramStr rp rf .print doc pbx
          i1 i2 i3 i4).registry = d2) := by
  intro method path summary server paramStr rp rf doc pbx i1 i2 i3 i4
  unfold runMain
  cases h1 : update_host_path doc path summary server with
  | error e =>
    refine ⟨rfl, rfl, rfl, rfl, ?_⟩
    intro d2 hn pn hok
    cases hok
  | ok res =>
    obtain ⟨d2', hn', pn', ch⟩ := res
    dsimp only
    have hlast : ∀ r : RunResult, r.requestWritten = false → r.modelWritten = false →
        r.pbxWritten = false → r.pbx = pbx →
        (ch = true → r.registryWritten = true ∧ r.registry = d2') →
        (r.requestWritten = false ∧ r.modelWritten = false ∧ r.pbxWritten = false ∧
          r.pbx = pbx ∧
          (∀ (d2 : RegistryDoc) (hn pn : String),
            Except.ok (d2', hn', pn', ch) =
              (Except.ok (d2, hn, pn, true) :
                Except String (RegistryDoc × String × String × Bool)) →
            r.registryWritten = true ∧ r.registry = d2)) := by
      intro r hr hm hp hv hreg
      refine ⟨hr, hm, hp, hv, ?_⟩
      intro d2 hn pn hok
      injection hok with hok2
      have hd : d2' = d2 := congrArg Prod.fst hok2
      have hc : ch = true := congrArg (fun x => x.2.2.2) hok2
      subst hd
      exact hreg hc
    cases h2 : parse_params paramStr with
    | error e =>
      exact hlast _ rfl rfl rfl rfl (fun hc => by subst hc; exact ⟨rfl, by simp⟩)
    | ok pr =>
      obtain ⟨params, ws⟩ := pr
      dsimp only
      cases h3 : build_request_method (to_pascal path ++ "Request") params method with
      | error e =>
        exact hlast _ rfl rfl rfl rfl (fun hc => by subst hc; exact ⟨rfl, by simp⟩)
      | ok s =>
        dsimp only
        cases h4 : responseStep (to_pascal path ++ "Model") rp rf with
        | error e =>
          exact hlast _ rfl rfl rfl rfl (fun hc => by subst hc; exact ⟨rfl, by simp⟩)
        | ok mr =>
          obtain ⟨models, noData⟩ := mr
          exact hlast _ rfl rfl rfl rfl (fun hc => by subst hc; exact ⟨rfl, by simp⟩)

/-- Counterexample to C5 as stated: a print-mode run against a registry
that lacks the key writes the registry document — `registryWritten =
true` and the on-disk document differs from the input — although print
mode was claimed to modify no on-disk document. -/
theorem C5_counterexample :
    runMain "GET" "/a/b" "s" "a.example.com" "" none [] .print
      ⟨[], [], true, true⟩ [] [] [] [] [] =
    ⟨⟨[("a", "a.example.com")], [⟨"s", "aB", "/a/b"⟩], true, true⟩,
      true, true, false, false, [], false, false, "", none⟩ ∧
    (⟨[("a", "a.example.com")], [⟨"s", "aB", "/a/b"⟩], true, true⟩ : RegistryDoc) ≠
      ⟨[], [], true, true⟩ := by
  exact ⟨by rfl, by decide⟩

/-- Witness for C5 at a concrete print-mode run with a changing merge. -/
theorem C5_print_mode_writes_registry_witness :
    (runMain "GET" "/a/b" "s" "a.example.com" "" none [] .print
      ⟨[], [], true, true⟩ [] [] [] [] []).requestWritten = false ∧
    (runMain "GET" "/a/b" "s" "a.example.com" "" none [] .print
      ⟨[], [], true, true⟩ [] [] [] [] []).pbxWritten = false ∧
    (runMain "GET" "/a/b" "s" "a.example.com" "" none [] .print
      ⟨[], [], true, true⟩ [] [] [] [] []).registryWritten = true :=
  have h := C5_print_mode_writes_registry "GET" "/a/b" "s" "a.example.com" "" none []
    ⟨[], [], true, true⟩ [] [] [] [] []
  ⟨h.1, h.2.2.1,
   (h.2.2.2.2 ⟨[("a", "a.example.com")], [⟨"s", "aB", "/a/b"⟩], true, true⟩
     "a" "aB" (by rfl)).1⟩

/-! ## Claim C8: a null `data` envelope is non-fatal -/

theorem update_host_path_ok_of_blocks (doc : RegistryDoc) (p s d : String)
    (hh : doc.hostBlockOk = true) (hp : doc.pathBlockOk = true) :
    ∃ d2 hn pn ch, update_host_path doc p s d = .ok (d2, hn, pn, ch) := by
  unfold update_host_path
  dsimp only
  cases h1 : ensure_host_entry doc (normalize_domain d) with
  | error e =>
    exfalso
    unfold ensure_host_entry at h1
    cases hf : findHostBinding doc (normalize_domain d) with
    | some n => rw [hf] at h1; cases h1
    | none =>
      rw [hf] at h1
      dsimp only at h1
      rw [if_pos hh] at h1
      cases h1
  | ok res =>
    obtain ⟨docA, hn, hc⟩ := res
    simp only [bind, Except.bind]
    cases h2 : ensure_path_entry docA p s (to_lower_camel (to_pascal p)) with
    | error e =>
      exfalso
      unfold ensure_path_entry at h2
      cases hf : findPathBinding docA p with
      | some n => rw [hf] at h2; cases h2
      | none =>
        rw [hf] at h2
        dsimp only at h2
        rw [if_pos (by
          rw [(ensure_host_entry_frame doc docA _ hn hc h1).2.1]
          exact hp)] at h2
        cases h2
    | ok res2 =>
      obtain ⟨docB, pn, pc⟩ := res2
      exact ⟨docB, hn, pn, hc || pc, rfl⟩

/-- C8: a response payload whose `data` envelope key is absent or null
yields zero generated record definitions (`models = ""`, no model file),
emits the no-data diagnostic, and is not fatal: the run completes and
still writes the request artifact. -/
theorem C8_null_data_is_nonfatal :
    ∀ (fields : List (String × JValue)) (path summary server : String)
      (doc : RegistryDoc) (pbx : Content) (i1 i2 i3 i4 : Content),
      doc.hostBlockOk = true → doc.pathBlockOk = true →
      (objGet fields "data" = none ∨ objGet fields "data" = some .jnull) →
      (runMain "GET" path summary server "" (some (.jobj fields)) [] .files doc pbx
        i1 i2 i3 i4).err = none ∧
      (runMain "GET" path summary server "" (some (.jobj fields)) [] .files doc pbx
        i1 i2 i3 i4).noDataDiag = true ∧
      (runMain "GET" path summary server "" (some (.jobj fields)) [] .files doc pbx
        i1 i2 i3 i4).models = "" ∧
      (runMain "GET" path summary server "" (some (.jobj fields)) [] .files doc pbx
        i1 i2 i3 i4).modelWritten = false ∧
      (runMain "GET" path summary server "" (some (.jobj fields)) [] .files doc pbx
        i1 i2 i3 i4).requestWritten = true := by
  intro fields path summary server doc pbx i1 i2 i3 i4 hh hp hdata
  have hstep : responseStep (to_pascal path ++ "Model") (some (.jobj fields)) [] =
      .ok ("", true) := by
    unfold responseStep extract_data_payload
    dsimp only
    rcases hdata with hd | hd <;> rw [hd]
  rcases update_host_path_ok_of_blocks doc path summary server hh hp with
    ⟨d2, hn, pn, ch, hok⟩
  unfold runMain
  rw [hok]
  dsimp only
  rw [show parse_params "" = .ok ([], []) from rfl]
  dsimp only
  rw [show build_request_method (to_pascal path ++ "Request") [] "GET" =
    build_request_method (to_pascal path ++ "Request") [] "GET" from rfl]
  cases hm : build_request_method (to_pascal path ++ "Request") [] "GET" with
  | error e =>
    exfalso
    unfold build_request_method at hm
    rw [if_pos (by left; rfl)] at hm
    cases hm
  | ok s =>
    dsimp only
    rw [hstep]
    exact ⟨rfl, rfl, rfl, rfl, rfl⟩

/-- Witness for C8 at the payload `{"data": null}`. -/
theorem C8_null_data_is_nonfatal_witness :
    (runMain "GET" "/a/b" "s" "a.example.com" "" (some (.jobj [("data", .jnull)]))
      [] .files ⟨[], [], true, true⟩ [] [] [] [] []).err = none ∧
    (runMain "GET" "/a/b" "s" "a.example.com" "" (some (.jobj [("data", .jnull)]))
      [] .files ⟨[], [], true, true⟩ [] [] [] [] []).noDataDiag = true ∧
    (runMain "GET" "/a/b" "s" "a.example.com" "" (some (.jobj [("data", .jnull)]))
      [] .files ⟨[], [], true, true⟩ [] [] [] [] []).models = "" ∧
    (runMain "GET" "/a/b" "s" "a.example.com" "" (some (.jobj [("data", .jnull)]))
      [] .files ⟨[], [], true, true⟩ [] [] [] [] []).requestWritten = true :=
  have h := C8_null_data_is_nonfatal [("data", .jnull)] "/a/b" "s" "a.example.com"
    ⟨[], [], true, true⟩ [] [] [] [] [] (by rfl) (by rfl) (Or.inr (by rfl))
  ⟨h.1, h.2.1, h.2.2.1, h.2.2.2.2⟩
